import Mathlib

/-!
Shallow embedding of the Arduino hashmap engine (src/hashmap.cpp, src/hashmap.h).

Modelling conventions:
* Keys and values are opaque pointer references; we model both as `Nat`
  identifiers, since the engine never inspects them beyond the pluggable
  `compare`/`hash` strategies it stores.
* The pluggable strategies are ordinary Lean functions stored in the table
  record, exactly as the C struct stores function pointers.
* `byte _in_use` is only ever assigned 0 or 1 by the engine, so it is a `Bool`.
* C status codes are `Int` constants mirroring the header defines.
* `calloc` of the bucket array yields zero-initialised buckets
  (`emptyBucket`); bucket reads go through `List.getD` with that default.
* Allocation success is an oracle `alloc : Nat → Bool` queried with the
  requested element count, since the claims quantify over allocation
  behaviour; `allocTrue` models a machine where every allocation succeeds.
* The unbounded `while (HASHMAP_FULL == index)` loop of `hashmap_put` is
  rendered with an explicit fuel counter (`hashmap_putFuel`); the loop
  re-enters at most once after a successful rehash, because a successful
  rehash leaves `cur_size` strictly below the doubled capacity, so fuel 2
  covers every behaviour of the C loop, and exhausted fuel reproduces the
  failure exit `HASHMAP_FULL` of the loop.  The mutual recursion between
  `hashmap_put` and `hashmap_rehash` is rendered by handing the put
  function (at one less fuel) to the rehash routine.
* `hashmap_iterate_impl` is instrumented to also return the list of value
  references passed to the callback, in call order, so that claims about
  which entries the callback visits can be stated; the `Int` component is
  exactly the C return value.
-/

/-- HASHMAP_DEFAULT_SIZE from hashmap.h. -/
def HASHMAP_DEFAULT_SIZE : Nat := 16

/-- HASHMAP_OK from hashmap.h. -/
def HASHMAP_OK : Int := 0

/-- HASHMAP_ERR from hashmap.h. -/
def HASHMAP_ERR : Int := -1

/-- HASHMAP_FULL from hashmap.h. -/
def HASHMAP_FULL : Int := -2

/-- HASHMAP_EMPTY from hashmap.h. -/
def HASHMAP_EMPTY : Int := -3

/-- HASHMAP_NOT_FOUND from hashmap.h. -/
def HASHMAP_NOT_FOUND : Int := -4

/-- One bucket of struct _hashmap_bucket: key reference, value reference,
occupancy flag. -/
structure Bucket where
  key : Nat
  value : Nat
  in_use : Bool
deriving DecidableEq

/-- A zero-initialised bucket, as produced by calloc. -/
def emptyBucket : Bucket := ⟨0, 0, false⟩

/-- struct _hashmap_map: bucket array, cached key array, the two strategy
functions, capacity, live count, dirty flag. -/
structure Table where
  buckets : List Bucket
  keys_cache : List Nat
  compare : Nat → Nat → Int
  hash : Nat → Nat
  max_size : Nat
  cur_size : Nat
  changed : Bool

/-- Read bucket `i` of the array (reads in the C code are always in range;
out of range reads default to a zeroed bucket). -/
def bucketAt (T : Table) (i : Nat) : Bucket := T.buckets.getD i emptyBucket

/-- The first `max_size` buckets in index order, as scanned by the C loops
`for (i = 0; i < map->_max_size; ++i)`. -/
def slotsList (T : Table) : List Bucket :=
  (List.range T.max_size).map (bucketAt T)

/-- The common linear-probing loop shape of `hashmap_hash` and
`hashmap_find`: starting at `cur_index`, test `cond` for at most `n` probes,
advancing with `(cur_index + 1) % max_size`; return the first index
satisfying `cond`, or `onFail` when the probes are exhausted. -/
def probeLoop (max_size : Nat) (cond : Nat → Bool) (onFail : Int) :
    Nat → Nat → Int
  | _, 0 => onFail
  | cur_index, Nat.succ n =>
    if cond cur_index then Int.ofNat cur_index
    else probeLoop max_size cond onFail ((cur_index + 1) % max_size) n

/-- The two early-return tests of the `hashmap_hash` probe loop: bucket
unused, or bucket used with an equal key. -/
def hashCond (T : Table) (k : Nat) (idx : Nat) : Bool :=
  (bucketAt T idx).in_use == false ||
    (decide (T.compare (bucketAt T idx).key k = 0) &&
      ((bucketAt T idx).in_use == true))

/-- The single early-return test of the `hashmap_find` probe loop: bucket
used with an equal key. -/
def findCond (T : Table) (k : Nat) (idx : Nat) : Bool :=
  decide (T.compare (bucketAt T idx).key k = 0) &&
    ((bucketAt T idx).in_use == true)

/-- hashmap_hash: if the table is full report HASHMAP_FULL, otherwise probe
linearly from `hash(key) % max_size` for at most `max_size` steps for a
bucket that is unused or holds an equal key. -/
def hashmap_hash (T : Table) (k : Nat) : Int :=
  if T.cur_size = T.max_size then HASHMAP_FULL
  else probeLoop T.max_size (hashCond T k) HASHMAP_FULL
    (T.hash k % T.max_size) T.max_size

/-- hashmap_find: if the table is empty report HASHMAP_EMPTY, otherwise
probe linearly from `hash(key) % max_size` for at most `max_size` steps for
a used bucket with an equal key; HASHMAP_NOT_FOUND when exhausted. -/
def hashmap_find (T : Table) (k : Nat) : Int :=
  if T.cur_size = 0 then HASHMAP_EMPTY
  else probeLoop T.max_size (findCond T k) HASHMAP_NOT_FOUND
    (T.hash k % T.max_size) T.max_size

/-- The bucket-filling tail of hashmap_put: store the key and value
references, mark the bucket occupied, increment the live count
(unconditionally, exactly as the C code does), set the dirty flag. -/
def fillBucket (T : Table) (i : Nat) (k v : Nat) : Table :=
  { T with buckets := T.buckets.set i ⟨k, v, true⟩,
           cur_size := T.cur_size + 1,
           changed := true }

/-- The re-insertion loop of hashmap_rehash: for each old bucket in index
order, if it is in use, re-insert its pair through the put function; abort
with the failing status on error. -/
def rehashLoopWith (putFn : Table → Nat → Nat → Int × Table) :
    Table → List Bucket → Int × Table
  | T, [] => (HASHMAP_OK, T)
  | T, b :: bs =>
    if b.in_use then
      match putFn T b.key b.value with
      | (status, T1) =>
        if status = HASHMAP_OK then rehashLoopWith putFn T1 bs
        else (status, T1)
    else rehashLoopWith putFn T bs

/-- hashmap_rehash, parameterised by the put function used for the
re-inserts: allocate a zeroed bucket array of twice the capacity (failure
leaves the table untouched and reports HASHMAP_ERR), double `max_size`,
reset `cur_size`, then re-insert every previously used bucket in original
index order. -/
def rehashWith (putFn : Table → Nat → Nat → Int × Table)
    (alloc : Nat → Bool) (T : Table) : Int × Table :=
  if alloc (2 * T.max_size) then
    rehashLoopWith putFn
      { T with buckets := List.replicate (2 * T.max_size) emptyBucket,
               max_size := 2 * T.max_size,
               cur_size := 0 }
      (slotsList T)
  else (HASHMAP_ERR, T)

/-- hashmap_put with explicit fuel for its rehash-retry loop: compute a
candidate bucket with hashmap_hash; while it reports HASHMAP_FULL, rehash
(returning HASHMAP_FULL if the rehash fails) and retry; on a usable index
fill the bucket. -/
def hashmap_putFuel : Nat → (Nat → Bool) → Table → Nat → Nat → Int × Table
  | 0 => fun _ T _ _ => (HASHMAP_FULL, T)
  | Nat.succ fuel => fun alloc T k v =>
    let index := hashmap_hash T k
    if index = HASHMAP_FULL then
      match rehashWith (hashmap_putFuel fuel alloc) alloc T with
      | (status, T1) =>
        if status = HASHMAP_OK then hashmap_putFuel fuel alloc T1 k v
        else (HASHMAP_FULL, T1)
    else (HASHMAP_OK, fillBucket T index.toNat k v)

/-- hashmap_put: fuel 2 covers every behaviour of the C retry loop, since a
successful rehash leaves the live count strictly below the doubled
capacity, so the re-probe cannot report full again. -/
def hashmap_put (alloc : Nat → Bool) (T : Table) (k v : Nat) : Int × Table :=
  hashmap_putFuel 2 alloc T k v

/-- hashmap_rehash as called with a fully capable put for the re-inserts. -/
def hashmap_rehash (alloc : Nat → Bool) (T : Table) : Int × Table :=
  rehashWith (hashmap_putFuel 1 alloc) alloc T

/-- hashmap_get: look the key up; on failure return the error code (no
value), on success return HASHMAP_OK and the stored value reference. -/
def hashmap_get (T : Table) (k : Nat) : Int × Option Nat :=
  let index := hashmap_find T k
  if index < 0 then (index, none)
  else (HASHMAP_OK, some (bucketAt T index.toNat).value)

/-- hashmap_remove: look the key up; on a hit clear the occupancy flag
(leaving the stale key/value references in place), decrement the live
count, set the dirty flag, and return the prior value reference. -/
def hashmap_remove (T : Table) (k : Nat) : Int × Option Nat × Table :=
  let index := hashmap_find T k
  if index < 0 then (index, none, T)
  else
    let i := index.toNat
    ((HASHMAP_OK : Int), some (bucketAt T i).value,
      { T with buckets := T.buckets.set i { bucketAt T i with in_use := false },
               cur_size := T.cur_size - 1,
               changed := true })

/-- The realloc of the cached key array to `n` entries: the surviving
prefix keeps the old contents, fresh memory beyond it is unspecified and
modelled as 0. -/
def resizeCache (old : List Nat) (n : Nat) : List Nat :=
  (List.range n).map (fun i => old.getD i 0)

/-- The key-copying loop of hashmap_keys:
`for (i = j = 0; i < max_size && j < cur_size; ++i) if (in_use) keys[j++] = key`,
with the countdown argument standing for the remaining values of `i`. -/
def copyKeys (T : Table) : Nat → Nat → Nat → List Nat → List Nat
  | _, _, 0, arr => arr
  | i, j, Nat.succ n, arr =>
    if j < T.cur_size then
      if (bucketAt T i).in_use then
        copyKeys T (i + 1) (j + 1) n (arr.set j (bucketAt T i).key)
      else copyKeys T (i + 1) j n arr
    else arr

/-- hashmap_keys: HASHMAP_EMPTY when the live count is zero; otherwise, if
the dirty flag is set, reallocate the cache to `cur_size` entries (failure
reported as HASHMAP_ERR with the cache pointer nulled) and rebuild it by
scanning the buckets in index order, then clear the dirty flag; return the
cached array and `cur_size`. -/
def hashmap_keys (allocOk : Bool) (T : Table) :
    Int × Option (List Nat × Nat) × Table :=
  if T.cur_size = 0 then (HASHMAP_EMPTY, none, T)
  else if T.changed then
    if allocOk then
      let arr := copyKeys T 0 0 T.max_size (resizeCache T.keys_cache T.cur_size)
      ((HASHMAP_OK : Int), some (arr, T.cur_size),
        { T with keys_cache := arr, changed := false })
    else (HASHMAP_ERR, none, { T with keys_cache := [] })
  else (HASHMAP_OK, some (T.keys_cache, T.cur_size), T)

/-- The scanning loop of hashmap_iterate_impl over the bucket array in
index order; the second component records the value references handed to
the callback, in call order. -/
def iterLoop (fn : Nat → Int) (check_status : Bool) :
    List Bucket → Int × List Nat
  | [] => (HASHMAP_OK, [])
  | b :: bs =>
    if b.in_use then
      let status := fn b.value
      if check_status ∧ status ≠ HASHMAP_OK then (status, [b.value])
      else
        match iterLoop fn check_status bs with
        | (r, tr) => (r, b.value :: tr)
    else iterLoop fn check_status bs

/-- hashmap_iterate_impl: HASHMAP_OK immediately when the live count is
zero; otherwise scan all buckets in index order, applying the callback to
every used bucket, stopping early with the callback status only when
`check_status` is set. -/
def hashmap_iterate_impl (T : Table) (fn : Nat → Int) (check_status : Bool) :
    Int × List Nat :=
  if T.cur_size = 0 then (HASHMAP_OK, [])
  else iterLoop fn check_status (slotsList T)

/-- hashmap_iterate: the entry point that never stops early. -/
def hashmap_iterate (T : Table) (fn : Nat → Int) : Int × List Nat :=
  hashmap_iterate_impl T fn false

/-- hashmap_iterate_check_ok_status: the entry point that stops at the
first callback result different from HASHMAP_OK. -/
def hashmap_iterate_check_ok_status (T : Table) (fn : Nat → Int) :
    Int × List Nat :=
  hashmap_iterate_impl T fn true

/-- hashmap_new with explicit strategies (the C null-pointer defaults bind
the string comparator and the Jenkins string hash; keys here are opaque
references, so the strategies are always passed explicitly): capacity 0
falls back to HASHMAP_DEFAULT_SIZE, the bucket array is zero-allocated, the
key cache is null, the live count is zero and the dirty flag set.
Allocation of the map itself is assumed to succeed. -/
def hashmap_new (max_size : Nat) (compare_fun : Nat → Nat → Int)
    (hash_fun : Nat → Nat) : Table :=
  { buckets := List.replicate (if max_size = 0 then HASHMAP_DEFAULT_SIZE else max_size) emptyBucket,
    keys_cache := [],
    compare := compare_fun,
    hash := hash_fun,
    max_size := if max_size = 0 then HASHMAP_DEFAULT_SIZE else max_size,
    cur_size := 0,
    changed := true }

/-- Driver folding hashmap_put over a list of key/value pairs, collecting
the returned status codes. -/
def putList (alloc : Nat → Bool) : Table → List (Nat × Nat) → List Int × Table
  | T, [] => ([], T)
  | T, kv :: rest =>
    match hashmap_put alloc T kv.1 kv.2 with
    | (s, T1) =>
      match putList alloc T1 rest with
      | (ss, T2) => (s :: ss, T2)

/-- The slot indices (in index order) of the currently occupied buckets. -/
def occupiedIdx (T : Table) : List Nat :=
  (List.range T.max_size).filter (fun j => (bucketAt T j).in_use)

/-- The key/value pairs of the occupied buckets, in slot-index order. -/
def occupiedPairs (T : Table) : List (Nat × Nat) :=
  (occupiedIdx T).map (fun j => ((bucketAt T j).key, (bucketAt T j).value))

/-- The value references of the occupied buckets, in slot-index order. -/
def occupiedValues (T : Table) : List Nat :=
  (occupiedIdx T).map (fun j => (bucketAt T j).value)

/-- The number of occupied buckets. -/
def countOccupied (T : Table) : Nat := (occupiedIdx T).length

/-- Modelled from the spec sentence on early-stopping iteration: run the
callback over the listed values, halting at the first result different
from Ok and propagating it; used as the specification the instrumented
`hashmap_iterate_check_ok_status` is compared against. -/
def runCheckSpec (fn : Nat → Int) : List Nat → Int × List Nat
  | [] => (HASHMAP_OK, [])
  | v :: vs =>
    if fn v ≠ HASHMAP_OK then (fn v, [v])
    else
      match runCheckSpec fn vs with
      | (r, tr) => (r, v :: tr)

/-- Example comparator for concrete runs: 0 exactly on equal references. -/
def cmpEx (a b : Nat) : Int := if a = b then 0 else 1

/-- Example hash for concrete runs: the identity. -/
def hshEx (k : Nat) : Nat := k

/-- Example hash for concrete runs: constant 0 (maximises clustering). -/
def hshZero (_ : Nat) : Nat := 0

/-- Allocation oracle of a machine where every allocation succeeds. -/
def allocTrue (_ : Nat) : Bool := true

/-- Allocation oracle of a machine where every allocation fails. -/
def allocFalse (_ : Nat) : Bool := false

/-- Example iteration callback for concrete runs: fails on value 20. -/
def fnEx (v : Nat) : Int := if v = 20 then -1 else 0

/-- The inductive invariant tying a table to the list `stored` of key/value
pairs it holds, used to verify insertion sequences of fresh, pairwise
compare-distinct keys: the array is well-sized, the strategies are the
fixed `cmp`/`hsh`, the live count equals the number of stored pairs, the
stored keys are compare-reflexive and pairwise compare-distinct, every
stored pair sits in some occupied bucket and every occupied bucket holds a
stored pair, no two occupied buckets hold compare-equal keys, and every
occupied bucket is reachable from its key's probe start through a run of
occupied buckets. -/
structure HInv (cmp : Nat → Nat → Int) (hsh : Nat → Nat)
    (T : Table) (stored : List (Nat × Nat)) : Prop where
  len : T.buckets.length = T.max_size
  maxpos : 0 < T.max_size
  cmp_eq : T.compare = cmp
  hash_eq : T.hash = hsh
  cur : T.cur_size = stored.length
  stored_refl : ∀ kv ∈ stored, cmp kv.1 kv.1 = 0
  stored_dist : stored.Pairwise (fun a b => cmp a.1 b.1 ≠ 0 ∧ cmp b.1 a.1 ≠ 0)
  has_slot : ∀ kv ∈ stored, ∃ j, j < T.max_size ∧
    bucketAt T j = ⟨kv.1, kv.2, true⟩
  occ_stored : ∀ j, j < T.max_size → (bucketAt T j).in_use = true →
    ((bucketAt T j).key, (bucketAt T j).value) ∈ stored
  nodup : ∀ i j, i < T.max_size → j < T.max_size → i ≠ j →
    (bucketAt T i).in_use = true → (bucketAt T j).in_use = true →
    cmp (bucketAt T i).key (bucketAt T j).key ≠ 0
  path : ∀ j, j < T.max_size → (bucketAt T j).in_use = true →
    ∃ s, s < T.max_size ∧
      j = (hsh (bucketAt T j).key % T.max_size + s) % T.max_size ∧
      ∀ t, t < s →
        (bucketAt T ((hsh (bucketAt T j).key % T.max_size + t) % T.max_size)).in_use = true

/-! ### Basic list access helpers -/

theorem getD_set_self {α : Type} (l : List α) (i : Nat) (a d : α)
    (h : i < l.length) : (l.set i a).getD i d = a := by
  simp [List.getD, List.getElem?_set_self, h]

theorem getD_set_ne {α : Type} (l : List α) {i j : Nat} (a d : α)
    (h : i ≠ j) : (l.set i a).getD j d = l.getD j d := by
  simp [List.getD, List.getElem?_set_ne h]

theorem getD_replicate_lt {α : Type} {n i : Nat} (d c : α) (h : i < n) :
    (List.replicate n c).getD i d = c := by
  simp [List.getD, List.getElem?_replicate, h]

/-! ### Generic facts about the linear probing loop -/

theorem probeLoop_first_hit {max : Nat} {cond : Nat → Bool} {onFail : Int} :
    ∀ (s n cur : Nat), cur < max → s < n →
      (∀ t, t < s → cond ((cur + t) % max) = false) →
      cond ((cur + s) % max) = true →
      probeLoop max cond onFail cur n = Int.ofNat ((cur + s) % max) := by
  intro s
  induction s with
  | zero =>
    intro n cur hc hn _ hhit
    match n, hn with
    | Nat.succ n', _ =>
      rw [Nat.add_zero, Nat.mod_eq_of_lt hc] at hhit ⊢
      simp [probeLoop, hhit]
  | succ s ih =>
    intro n cur hc hn hmiss hhit
    match n, hn with
    | Nat.succ n', hn =>
      have hmax : 0 < max := Nat.lt_of_le_of_lt (Nat.zero_le cur) hc
      have h0 : cond cur = false := by
        have h := hmiss 0 (Nat.succ_pos s)
        rwa [Nat.add_zero, Nat.mod_eq_of_lt hc] at h
      have hstep : ∀ t, ((cur + 1) % max + t) % max = (cur + (t + 1)) % max := by
        intro t
        rw [Nat.mod_add_mod]
        ring_nf
      have ihres := ih n' ((cur + 1) % max) (Nat.mod_lt _ hmax)
        (Nat.lt_of_succ_lt_succ hn)
        (fun t ht => by rw [hstep t]; exact hmiss (t + 1) (Nat.succ_lt_succ ht))
        (by rw [hstep s]; exact hhit)
      rw [show Nat.succ n' = n' + 1 from rfl]
      simp only [probeLoop, h0, Bool.false_eq_true, if_false]
      rw [ihres, hstep s]

theorem probeLoop_ret {max : Nat} {cond : Nat → Bool} {onFail : Int}
    (hf : onFail < 0) :
    ∀ (n cur i : Nat), cur < max →
      probeLoop max cond onFail cur n = Int.ofNat i →
      cond i = true ∧ i < max ∧
        ∃ s, s < n ∧ i = (cur + s) % max ∧
          ∀ t, t < s → cond ((cur + t) % max) = false := by
  intro n
  induction n with
  | zero =>
    intro cur i _ h
    rw [probeLoop] at h
    rw [h] at hf
    exact absurd hf (by exact Int.not_lt.mpr (Int.natCast_nonneg i))
  | succ n ih =>
    intro cur i hc h
    have hmax : 0 < max := Nat.lt_of_le_of_lt (Nat.zero_le cur) hc
    by_cases hcur : cond cur = true
    · rw [probeLoop, if_pos hcur] at h
      have hi : cur = i := Int.ofNat.inj h
      subst hi
      exact ⟨hcur, hc, 0, Nat.succ_pos n,
        by rw [Nat.add_zero, Nat.mod_eq_of_lt hc],
        fun t ht => absurd ht (Nat.not_lt_zero t)⟩
    · rw [probeLoop, if_neg hcur] at h
      have hstep : ∀ t, ((cur + 1) % max + t) % max = (cur + (t + 1)) % max := by
        intro t
        rw [Nat.mod_add_mod]
        ring_nf
      obtain ⟨hcondi, hilt, s, hs, hi, hmiss⟩ :=
        ih ((cur + 1) % max) i (Nat.mod_lt _ hmax) h
      refine ⟨hcondi, hilt, s + 1, Nat.succ_lt_succ hs, ?_, ?_⟩
      · rw [hi, hstep s]
      · intro t ht
        match t with
        | 0 =>
          rw [Nat.add_zero, Nat.mod_eq_of_lt hc]
          exact Bool.not_eq_true _ ▸ eq_false_of_ne_true hcur
        | Nat.succ t' =>
          rw [show cur + Nat.succ t' = cur + (t' + 1) from rfl, ← hstep t']
          exact hmiss t' (Nat.lt_of_succ_lt_succ ht)

theorem probeLoop_all_fail {max : Nat} {cond : Nat → Bool} {onFail : Int} :
    ∀ (n cur : Nat), cur < max →
      (∀ t, t < n → cond ((cur + t) % max) = false) →
      probeLoop max cond onFail cur n = onFail := by
  intro n
  induction n with
  | zero => intro cur _ _; rw [probeLoop]
  | succ n ih =>
    intro cur hc hmiss
    have hmax : 0 < max := Nat.lt_of_le_of_lt (Nat.zero_le cur) hc
    have h0 : cond cur = false := by
      have h := hmiss 0 (Nat.succ_pos n)
      rwa [Nat.add_zero, Nat.mod_eq_of_lt hc] at h
    have hstep : ∀ t, ((cur + 1) % max + t) % max = (cur + (t + 1)) % max := by
      intro t
      rw [Nat.mod_add_mod]
      ring_nf
    rw [probeLoop, if_neg (by simp [h0])]
    exact ih ((cur + 1) % max) (Nat.mod_lt _ hmax)
      (fun t ht => by rw [hstep t]; exact hmiss (t + 1) (Nat.succ_lt_succ ht))

theorem probeLoop_shape {max : Nat} {cond : Nat → Bool} {onFail : Int} :
    ∀ (n cur : Nat), probeLoop max cond onFail cur n = onFail ∨
      ∃ i, probeLoop max cond onFail cur n = Int.ofNat i := by
  intro n
  induction n with
  | zero => intro cur; left; rw [probeLoop]
  | succ n ih =>
    intro cur
    by_cases hcur : cond cur = true
    · right; exact ⟨cur, by rw [probeLoop, if_pos hcur]⟩
    · rw [probeLoop, if_neg hcur]
      exact ih ((cur + 1) % max)

theorem probe_surj {max : Nat} (cur j : Nat) (hc : cur < max) (hj : j < max) :
    ∃ s, s < max ∧ (cur + s) % max = j := by
  have hmax : 0 < max := Nat.lt_of_le_of_lt (Nat.zero_le cur) hc
  refine ⟨(max + j - cur) % max, Nat.mod_lt _ hmax, ?_⟩
  rw [Nat.add_mod_mod, Nat.add_sub_cancel' (by omega : cur ≤ max + j),
    Nat.add_mod_left, Nat.mod_eq_of_lt hj]

theorem probe_inj {max : Nat} {cur s t : Nat} (hs : s < max) (ht : t < max)
    (h : (cur + s) % max = (cur + t) % max) : s = t := by
  have h1 : s ≡ t [MOD max] := Nat.ModEq.add_left_cancel' cur h
  have h2 : s % max = t % max := h1
  rwa [Nat.mod_eq_of_lt hs, Nat.mod_eq_of_lt ht] at h2

/-- The one-step unfolding of the put retry loop at positive fuel. -/
theorem putFuel_succ_eq (fuel : Nat) (alloc : Nat → Bool) (T : Table) (k v : Nat) :
    hashmap_putFuel (fuel + 1) alloc T k v =
      if hashmap_hash T k = HASHMAP_FULL then
        match rehashWith (hashmap_putFuel fuel alloc) alloc T with
        | (status, T1) =>
          if status = HASHMAP_OK then hashmap_putFuel fuel alloc T1 k v
          else (HASHMAP_FULL, T1)
      else (HASHMAP_OK, fillBucket T (hashmap_hash T k).toNat k v) := rfl

/-! ### Preservation of the array-length and strategy fields -/

/-- The bucket array of a well-formed table has exactly `max_size` slots. -/
def WFT (T : Table) : Prop := T.buckets.length = T.max_size

/-- Invariant fields preserved by every mutating operation: array length
matches capacity, and the two strategy function pointers are untouched. -/
def Pres (T T1 : Table) : Prop :=
  (WFT T → WFT T1) ∧ T1.compare = T.compare ∧ T1.hash = T.hash

theorem pres_refl {T : Table} : Pres T T := ⟨id, Eq.refl _, Eq.refl _⟩

theorem pres_trans {T T1 T2 : Table} (h1 : Pres T T1) (h2 : Pres T1 T2) :
    Pres T T2 :=
  ⟨fun h => h2.1 (h1.1 h), h2.2.1.trans h1.2.1, h2.2.2.trans h1.2.2⟩

theorem pres_fillBucket (T : Table) (i k v : Nat) :
    Pres T (fillBucket T i k v) := by
  refine ⟨fun h => ?_, rfl, rfl⟩
  simp only [WFT, fillBucket, List.length_set]
  exact h

theorem pres_rehashLoopWith (putFn : Table → Nat → Nat → Int × Table)
    (hput : ∀ T k v, Pres T (putFn T k v).2) :
    ∀ (bs : List Bucket) (T : Table), Pres T (rehashLoopWith putFn T bs).2 := by
  intro bs
  induction bs with
  | nil => intro T; exact pres_refl
  | cons b bs ih =>
    intro T
    by_cases hb : b.in_use
    · rcases hp : putFn T b.key b.value with ⟨status, T1⟩
      by_cases hs : status = HASHMAP_OK
      · simp only [rehashLoopWith, hb, if_true, hp, hs, if_pos]
        refine pres_trans ?_ (ih T1)
        have h := hput T b.key b.value
        rwa [hp] at h
      · simp only [rehashLoopWith, hb, if_true, hp, if_neg hs]
        have h := hput T b.key b.value
        rwa [hp] at h
    · simp only [rehashLoopWith, hb, if_false]
      exact ih T

theorem pres_rehashWith (putFn : Table → Nat → Nat → Int × Table)
    (hput : ∀ T k v, Pres T (putFn T k v).2)
    (alloc : Nat → Bool) (T : Table) :
    Pres T (rehashWith putFn alloc T).2 := by
  by_cases ha : alloc (2 * T.max_size)
  · rw [rehashWith, if_pos ha]
    refine @pres_trans _ { T with buckets := List.replicate (2 * T.max_size) emptyBucket, max_size := 2 * T.max_size, cur_size := 0 } _ ?_ ?_
    · exact ⟨fun _ => by simp [WFT], rfl, rfl⟩
    · exact pres_rehashLoopWith putFn hput _ _
  · rw [rehashWith, if_neg ha]
    exact pres_refl

theorem pres_putFuel :
    ∀ (fuel : Nat) (alloc : Nat → Bool) (T : Table) (k v : Nat),
      Pres T (hashmap_putFuel fuel alloc T k v).2 := by
  intro fuel
  induction fuel with
  | zero => intro alloc T k v; exact pres_refl
  | succ fuel ih =>
    intro alloc T k v
    by_cases hfull : hashmap_hash T k = HASHMAP_FULL
    · rcases hr : rehashWith (hashmap_putFuel fuel alloc) alloc T with ⟨status, T1⟩
      have hpres1 : Pres T T1 := by
        rw [show T1 = (rehashWith (hashmap_putFuel fuel alloc) alloc T).2 from by rw [hr]]
        exact pres_rehashWith _ (fun T2 k2 v2 => ih alloc T2 k2 v2) alloc T
      by_cases hs : status = HASHMAP_OK
      · simp only [hashmap_putFuel, hfull, if_pos, hr, hs, if_true]
        exact pres_trans hpres1 (ih alloc T1 k v)
      · simp only [hashmap_putFuel, hfull, if_pos, hr, if_neg hs]
        exact hpres1
    · simp only [hashmap_putFuel, hfull, if_neg, if_false]
      exact pres_fillBucket T _ k v

/-! ### What a successful probe of hashmap_hash means, and the round trip -/

theorem hashCond_false {T : Table} {k idx : Nat}
    (h : hashCond T k idx = false) :
    (bucketAt T idx).in_use = true ∧ ¬T.compare (bucketAt T idx).key k = 0 := by
  rw [hashCond, Bool.or_eq_false_iff, Bool.and_eq_false_iff] at h
  rcases h with ⟨h1, h2⟩
  have hu : (bucketAt T idx).in_use = true := by
    cases hbi : (bucketAt T idx).in_use
    · rw [hbi] at h1; simp at h1
    · rfl
  refine ⟨hu, ?_⟩
  rcases h2 with h2 | h2
  · simpa using h2
  · rw [hu] at h2; simp at h2

theorem ofNat_cast (i : Nat) : Int.ofNat i = (i : Int) := rfl

theorem ofNat_not_neg (i : Nat) : ¬Int.ofNat i < 0 := by
  rw [ofNat_cast]; omega

theorem toNat_ofNat (i : Nat) : (Int.ofNat i).toNat = i := rfl

theorem hashmap_hash_cases (T : Table) (k : Nat) :
    hashmap_hash T k = HASHMAP_FULL ∨
      ∃ i, hashmap_hash T k = Int.ofNat i := by
  rw [hashmap_hash]
  by_cases hc : T.cur_size = T.max_size
  · left; rw [if_pos hc]
  · rw [if_neg hc]; exact probeLoop_shape _ _

theorem hashmap_hash_ret {T : Table} {k i : Nat}
    (h : hashmap_hash T k = Int.ofNat i) :
    0 < T.max_size ∧ i < T.max_size ∧ hashCond T k i = true ∧
      ∃ s, s < T.max_size ∧ i = (T.hash k % T.max_size + s) % T.max_size ∧
        ∀ t, t < s → hashCond T k ((T.hash k % T.max_size + t) % T.max_size) = false := by
  rw [hashmap_hash] at h
  by_cases hc : T.cur_size = T.max_size
  · rw [if_pos hc] at h
    exact absurd h (by rw [ofNat_cast, HASHMAP_FULL]; omega)
  · rw [if_neg hc] at h
    have hmax : 0 < T.max_size := by
      rcases Nat.eq_zero_or_pos T.max_size with h0 | h0
      · rw [h0] at h
        rw [show probeLoop 0 (hashCond T k) HASHMAP_FULL (T.hash k % 0) 0 = HASHMAP_FULL from rfl] at h
        exact absurd h (by rw [ofNat_cast, HASHMAP_FULL]; omega)
      · exact h0
    obtain ⟨hcond, hilt, hs⟩ := probeLoop_ret (by rw [HASHMAP_FULL]; omega)
      T.max_size (T.hash k % T.max_size) i (Nat.mod_lt _ hmax) h
    exact ⟨hmax, hilt, hcond, hs⟩

theorem get_after_fill {T : Table} {k v i : Nat}
    (hwf : WFT T) (hrefl : T.compare k k = 0)
    (hh : hashmap_hash T k = Int.ofNat i) :
    hashmap_get (fillBucket T i k v) k = (HASHMAP_OK, some v) := by
  obtain ⟨hmax, hilt, _, s, hslt, hi, hmiss⟩ := hashmap_hash_ret hh
  set start := T.hash k % T.max_size with hstart
  have hstartlt : start < T.max_size := Nat.mod_lt _ hmax
  set T1 := fillBucket T i k v with hT1
  have hbi : bucketAt T1 i = ⟨k, v, true⟩ := by
    rw [hT1, fillBucket, bucketAt]
    exact getD_set_self _ _ _ _ (by rw [hwf]; exact hilt)
  have hbother : ∀ j, j ≠ i → bucketAt T1 j = bucketAt T j := by
    intro j hj
    rw [hT1, fillBucket, bucketAt, bucketAt]
    exact getD_set_ne _ _ _ (fun he => hj he.symm)
  have hfind : hashmap_find T1 k = Int.ofNat i := by
    rw [hashmap_find]
    have hcur : T1.cur_size ≠ 0 := by
      rw [hT1, fillBucket]
      exact Nat.succ_ne_zero _
    rw [if_neg hcur]
    have hT1max : T1.max_size = T.max_size := rfl
    have hT1hash : T1.hash = T.hash := rfl
    have hT1cmp : T1.compare = T.compare := rfl
    rw [hT1max, hT1hash]
    have := @probeLoop_first_hit T.max_size (findCond T1 k)
      HASHMAP_NOT_FOUND s T.max_size start hstartlt hslt ?_ ?_
    · rw [this, ← hi]
    · intro t ht
      have hne : (start + t) % T.max_size ≠ i := by
        rw [hi]
        intro he
        exact absurd (probe_inj (Nat.lt_trans ht hslt) hslt he) (Nat.ne_of_lt ht)
      obtain ⟨hu, hcmp⟩ := hashCond_false (hmiss t ht)
      rw [findCond, hbother _ hne, hT1cmp]
      simp [hcmp]
    · rw [← hi, findCond, hbi, hT1cmp]
      simp [hrefl]
  simp only [hashmap_get, hfind]
  rw [if_neg (ofNat_not_neg i), toNat_ofNat, hbi]

theorem putFuel_roundtrip :
    ∀ (fuel : Nat) (alloc : Nat → Bool) (T : Table) (k v : Nat),
      WFT T → T.compare k k = 0 →
      (hashmap_putFuel fuel alloc T k v).1 = HASHMAP_OK →
      hashmap_get (hashmap_putFuel fuel alloc T k v).2 k = (HASHMAP_OK, some v) := by
  intro fuel
  induction fuel with
  | zero =>
    intro alloc T k v _ _ hok
    have hok2 : HASHMAP_FULL = HASHMAP_OK := hok
    exact absurd hok2 (by decide)
  | succ fuel ih =>
    intro alloc T k v hwf hrefl hok
    by_cases hfull : hashmap_hash T k = HASHMAP_FULL
    · rcases hr : rehashWith (hashmap_putFuel fuel alloc) alloc T with ⟨status, T1⟩
      have hpres1 : Pres T T1 := by
        have h := pres_rehashWith _ (fun T2 k2 v2 => pres_putFuel fuel alloc T2 k2 v2) alloc T
        rwa [hr] at h
      by_cases hs : status = HASHMAP_OK
      · simp only [hashmap_putFuel, hfull, if_pos, hr, hs, if_true] at hok ⊢
        exact ih alloc T1 k v (hpres1.1 hwf) (by rw [hpres1.2.1]; exact hrefl) hok
      · simp only [hashmap_putFuel, hfull, if_pos, hr, if_neg hs] at hok
        exact absurd hok (by decide)
    · rcases hashmap_hash_cases T k with hc | ⟨i, hi⟩
      · exact absurd hc hfull
      · simp only [hashmap_putFuel, hfull, if_neg, if_false, hi, Int.toNat_ofNat]
        exact get_after_fill hwf hrefl hi

/-! ### Membership facts for the occupied-slot views -/

theorem getD_ge {α : Type} {l : List α} {i : Nat} (d : α)
    (h : l.length ≤ i) : l.getD i d = d := by
  simp [List.getD, List.getElem?_eq_none h]

theorem ofNat_ne_full (i : Nat) : Int.ofNat i ≠ HASHMAP_FULL := by
  rw [ofNat_cast]
  simp only [HASHMAP_FULL]
  omega

theorem mem_occupiedPairs {T : Table} {p : Nat × Nat} :
    p ∈ occupiedPairs T ↔ ∃ j, j < T.max_size ∧
      (bucketAt T j).in_use = true ∧
      (bucketAt T j).key = p.1 ∧ (bucketAt T j).value = p.2 := by
  constructor
  · intro hp
    rw [occupiedPairs, List.mem_map] at hp
    obtain ⟨j, hj, hjp⟩ := hp
    rw [occupiedIdx, List.mem_filter, List.mem_range] at hj
    refine ⟨j, hj.1, by simpa using hj.2, ?_, ?_⟩
    · rw [← hjp]
    · rw [← hjp]
  · intro ⟨j, hj, hu, hk, hv⟩
    rw [occupiedPairs, List.mem_map]
    refine ⟨j, ?_, by rw [hk, hv]⟩
    rw [occupiedIdx, List.mem_filter, List.mem_range]
    exact ⟨hj, by simp [hu]⟩

theorem stored_mem_occupiedPairs {cmp : Nat → Nat → Int} {hsh : Nat → Nat}
    {T : Table} {stored : List (Nat × Nat)} (inv : HInv cmp hsh T stored) {kv : Nat × Nat} (hkv : kv ∈ stored) :
    kv ∈ occupiedPairs T := by
  obtain ⟨j, hj, hslot⟩ := inv.has_slot kv hkv
  exact mem_occupiedPairs.mpr ⟨j, hj, by rw [hslot], by rw [hslot], by rw [hslot]⟩

theorem occupiedPairs_length_le (T : Table) :
    (occupiedPairs T).length ≤ T.max_size := by
  rw [occupiedPairs, List.length_map, occupiedIdx]
  calc ((List.range T.max_size).filter (fun j => (bucketAt T j).in_use)).length
      ≤ (List.range T.max_size).length := List.length_filter_le _ _
    _ = T.max_size := List.length_range T.max_size

/-! ### Finding a stored pair again -/

theorem find_stored {cmp : Nat → Nat → Int} {hsh : Nat → Nat}
    {T : Table} {stored : List (Nat × Nat)} (inv : HInv cmp hsh T stored)
    {kv : Nat × Nat} (hkv : kv ∈ stored) :
    hashmap_get T kv.1 = (HASHMAP_OK, some kv.2) := by
  obtain ⟨j, hj, hslot⟩ := inv.has_slot kv hkv
  have hju : (bucketAt T j).in_use = true := by rw [hslot]
  have hjk : (bucketAt T j).key = kv.1 := by rw [hslot]
  obtain ⟨s, hs, hjs, hpath⟩ := inv.path j hj hju
  rw [hjk] at hjs hpath
  have hstart : hsh kv.1 % T.max_size < T.max_size := Nat.mod_lt _ inv.maxpos
  have hfind : hashmap_find T kv.1 = Int.ofNat j := by
    rw [hashmap_find, if_neg (by
      rw [inv.cur]
      exact fun h0 => absurd hkv (by rw [List.length_eq_zero] at h0; rw [h0]; exact List.not_mem_nil kv)),
      inv.hash_eq]
    have hit := @probeLoop_first_hit T.max_size (findCond T kv.1)
      HASHMAP_NOT_FOUND s T.max_size (hsh kv.1 % T.max_size)
      hstart hs ?_ ?_
    · rw [hit, ← hjs]
    · intro t ht
      set idx := (hsh kv.1 % T.max_size + t) % T.max_size with hidx
      have hidxlt : idx < T.max_size := Nat.mod_lt _ inv.maxpos
      have hne : idx ≠ j := by
        rw [hjs]
        intro he
        exact absurd (probe_inj (Nat.lt_trans ht hs) hs he) (Nat.ne_of_lt ht)
      have hiu : (bucketAt T idx).in_use = true := hpath t ht
      have hcmp : cmp (bucketAt T idx).key (bucketAt T j).key ≠ 0 :=
        inv.nodup idx j hidxlt hj hne hiu hju
      rw [hjk] at hcmp
      rw [findCond, inv.cmp_eq]
      simp [hcmp]
    · rw [← hjs, findCond, inv.cmp_eq, hjk]
      simp [hju, inv.stored_refl kv hkv]
  simp only [hashmap_get, hfind]
  rw [if_neg (ofNat_not_neg j), toNat_ofNat]
  rw [hslot]

/-! ### A fresh key gets a fresh bucket -/

theorem exists_unused {cmp : Nat → Nat → Int} {hsh : Nat → Nat}
    {T : Table} {stored : List (Nat × Nat)} (inv : HInv cmp hsh T stored)
    (hlt : stored.length < T.max_size) :
    ∃ j, j < T.max_size ∧ (bucketAt T j).in_use = false := by
  by_contra hno
  push_neg at hno
  have hall : ∀ j, j < T.max_size → (bucketAt T j).in_use = true := by
    intro j hj
    cases h : (bucketAt T j).in_use
    · exact absurd h (hno j hj)
    · rfl
  have hinj : Set.InjOn (fun j => (bucketAt T j).key) (Finset.range T.max_size) := by
    intro i hi j hj hij
    simp only [Finset.coe_range, Set.mem_Iio] at hi hj
    by_contra hne
    have h0 : cmp (bucketAt T i).key (bucketAt T i).key = 0 := by
      have hmem := inv.occ_stored i hi (hall i hi)
      exact inv.stored_refl _ hmem
    have h1 : cmp (bucketAt T i).key (bucketAt T j).key ≠ 0 :=
      inv.nodup i j hi hj hne (hall i hi) (hall j hj)
    have hij2 : (bucketAt T i).key = (bucketAt T j).key := hij
    rw [← hij2] at h1
    exact h1 h0
  have hmaps : ∀ a ∈ Finset.range T.max_size,
      (fun j => (bucketAt T j).key) a ∈ (stored.map Prod.fst).toFinset := by
    intro a ha
    rw [Finset.mem_range] at ha
    exact List.mem_toFinset.mpr
      (List.mem_map_of_mem Prod.fst (inv.occ_stored a ha (hall a ha)))
  have hcard := Finset.card_le_card_of_injOn _ hmaps hinj
  rw [Finset.card_range] at hcard
  have h2 : (stored.map Prod.fst).toFinset.card ≤ stored.length := by
    calc (stored.map Prod.fst).toFinset.card ≤ (stored.map Prod.fst).length :=
        (stored.map Prod.fst).toFinset_card_le
      _ = stored.length := List.length_map stored Prod.fst
  omega

theorem hash_new_key {cmp : Nat → Nat → Int} {hsh : Nat → Nat}
    {T : Table} {stored : List (Nat × Nat)} (inv : HInv cmp hsh T stored) {k : Nat}
    (hdk : ∀ kv ∈ stored, cmp kv.1 k ≠ 0)
    (hlt : stored.length < T.max_size) :
    ∃ i, hashmap_hash T k = Int.ofNat i ∧ i < T.max_size ∧
      (bucketAt T i).in_use = false ∧
      ∃ s, s < T.max_size ∧ i = (hsh k % T.max_size + s) % T.max_size ∧
        ∀ t, t < s →
          (bucketAt T ((hsh k % T.max_size + t) % T.max_size)).in_use = true := by
  have hcurne : T.cur_size ≠ T.max_size := by rw [inv.cur]; omega
  have hstart : hsh k % T.max_size < T.max_size := Nat.mod_lt _ inv.maxpos
  obtain ⟨j, hj, hju⟩ := exists_unused inv hlt
  obtain ⟨s0, hs0, hjs0⟩ := probe_surj (hsh k % T.max_size) j hstart hj
  have hex : ∃ s, hashCond T k ((hsh k % T.max_size + s) % T.max_size) = true :=
    ⟨s0, by rw [hjs0, hashCond, hju]; simp⟩
  have hs := Nat.find_spec hex
  set s := Nat.find hex with hsdef
  have hslt : s < T.max_size :=
    Nat.lt_of_le_of_lt (Nat.find_le (by rw [hjs0, hashCond, hju]; simp)) hs0
  set i := (hsh k % T.max_size + s) % T.max_size with hidef
  have hilt : i < T.max_size := Nat.mod_lt _ inv.maxpos
  have hmiss : ∀ t, t < s → hashCond T k ((hsh k % T.max_size + t) % T.max_size) = false := by
    intro t ht
    have := Nat.find_min hex ht
    cases h : hashCond T k ((hsh k % T.max_size + t) % T.max_size)
    · rfl
    · exact absurd h this
  have hiu : (bucketAt T i).in_use = false := by
    cases hb : (bucketAt T i).in_use
    · rfl
    · exfalso
      rw [hashCond, hb] at hs
      simp at hs
      have hmem := inv.occ_stored i hilt hb
      rw [inv.cmp_eq] at hs
      exact (hdk _ hmem) hs
  refine ⟨i, ?_, hilt, hiu, s, hslt, rfl, fun t ht => (hashCond_false (hmiss t ht)).1⟩
  rw [hashmap_hash, if_neg hcurne, inv.hash_eq]
  exact probeLoop_first_hit s T.max_size (hsh k % T.max_size) hstart hslt hmiss hs

/-! ### Filling a fresh bucket preserves the invariant -/

theorem fill_max (T : Table) (i k v : Nat) :
    (fillBucket T i k v).max_size = T.max_size := rfl

theorem fill_cur (T : Table) (i k v : Nat) :
    (fillBucket T i k v).cur_size = T.cur_size + 1 := rfl

theorem bucketAt_fill_self {T : Table} {i : Nat} (k v : Nat)
    (hwf : T.buckets.length = T.max_size) (hi : i < T.max_size) :
    bucketAt (fillBucket T i k v) i = ⟨k, v, true⟩ := by
  simp only [fillBucket, bucketAt]
  exact getD_set_self _ _ _ _ (by rw [hwf]; exact hi)

theorem bucketAt_fill_ne {T : Table} {i j : Nat} (k v : Nat) (h : j ≠ i) :
    bucketAt (fillBucket T i k v) j = bucketAt T j := by
  simp only [fillBucket, bucketAt]
  exact getD_set_ne _ _ _ (fun he => h he.symm)

theorem inv_fill {cmp : Nat → Nat → Int} {hsh : Nat → Nat} {T : Table}
    {stored : List (Nat × Nat)} {k v : Nat}
    (inv : HInv cmp hsh T stored) (hk : cmp k k = 0)
    (hdk : ∀ kv ∈ stored, cmp kv.1 k ≠ 0 ∧ cmp k kv.1 ≠ 0)
    {i s : Nat} (hi : i < T.max_size) (hiu : (bucketAt T i).in_use = false)
    (his : i = (hsh k % T.max_size + s) % T.max_size) (hs : s < T.max_size)
    (hpath : ∀ t, t < s →
      (bucketAt T ((hsh k % T.max_size + t) % T.max_size)).in_use = true) :
    HInv cmp hsh (fillBucket T i k v) (stored ++ [(k, v)]) := by
  have hbi : bucketAt (fillBucket T i k v) i = ⟨k, v, true⟩ :=
    bucketAt_fill_self k v inv.len hi
  have hbne : ∀ j, j ≠ i → bucketAt (fillBucket T i k v) j = bucketAt T j :=
    fun j hj => bucketAt_fill_ne k v hj
  refine ⟨?_, inv.maxpos, inv.cmp_eq, inv.hash_eq, ?_, ?_, ?_, ?_, ?_, ?_, ?_⟩
  · simp only [fillBucket, List.length_set]
    exact inv.len
  · simp only [fill_cur, List.length_append, List.length_singleton]
    rw [inv.cur]
  · intro kv hkv
    rcases List.mem_append.mp hkv with h | h
    · exact inv.stored_refl kv h
    · rw [List.mem_singleton] at h
      rw [h]
      exact hk
  · rw [List.pairwise_append]
    refine ⟨inv.stored_dist, List.pairwise_singleton _ _, ?_⟩
    intro a ha b hb
    rw [List.mem_singleton] at hb
    rw [hb]
    exact hdk a ha
  · intro kv hkv
    rcases List.mem_append.mp hkv with h | h
    · obtain ⟨j, hj, hslot⟩ := inv.has_slot kv h
      have hne : j ≠ i := by
        intro he
        rw [he] at hslot
        rw [hslot] at hiu
        simp at hiu
      exact ⟨j, hj, by rw [hbne j hne, hslot]⟩
    · rw [List.mem_singleton] at h
      rw [h]
      exact ⟨i, hi, hbi⟩
  · intro j hj hju
    by_cases he : j = i
    · rw [he, hbi]
      exact List.mem_append_right _ (List.mem_singleton.mpr rfl)
    · rw [hbne j he] at hju ⊢
      exact List.mem_append_left _ (inv.occ_stored j hj hju)
  · intro a b ha hb hab hua hub
    by_cases hea : a = i
    · by_cases heb : b = i
      · exact absurd (hea.trans heb.symm) hab
      · rw [hea, hbi]
        rw [hbne b heb] at hub ⊢
        exact (hdk _ (inv.occ_stored b hb hub)).2
    · by_cases heb : b = i
      · rw [heb, hbi]
        rw [hbne a hea] at hua ⊢
        exact (hdk _ (inv.occ_stored a ha hua)).1
      · rw [hbne a hea] at hua ⊢
        rw [hbne b heb] at hub ⊢
        exact inv.nodup a b ha hb hab hua hub
  · intro j hj hju
    rw [fill_max] at hj
    by_cases he : j = i
    · rw [he] at hju ⊢
      simp only [hbi, fill_max]
      refine ⟨s, hs, his, ?_⟩
      intro t ht
      by_cases hidx : (hsh k % T.max_size + t) % T.max_size = i
      · rw [hidx]
        simp [hbi]
      · rw [hbne _ hidx]
        exact hpath t ht
    · rw [hbne j he] at hju ⊢
      simp only [fill_max]
      obtain ⟨s1, hs1, hjs1, hp1⟩ := inv.path j hj hju
      refine ⟨s1, hs1, hjs1, ?_⟩
      intro t ht
      by_cases hidx : (hsh (bucketAt T j).key % T.max_size + t) % T.max_size = i
      · rw [hidx]
        simp [hbi]
      · rw [hbne _ hidx]
        exact hp1 t ht

theorem putFuel_new {cmp : Nat → Nat → Int} {hsh : Nat → Nat} {T : Table}
    {stored : List (Nat × Nat)} {k : Nat}
    (inv : HInv cmp hsh T stored) (hk : cmp k k = 0)
    (hdk : ∀ kv ∈ stored, cmp kv.1 k ≠ 0 ∧ cmp k kv.1 ≠ 0)
    (hlt : stored.length < T.max_size) (v fuel : Nat) (alloc : Nat → Bool) :
    (hashmap_putFuel (fuel + 1) alloc T k v).1 = HASHMAP_OK ∧
    HInv cmp hsh (hashmap_putFuel (fuel + 1) alloc T k v).2 (stored ++ [(k, v)]) ∧
    (hashmap_putFuel (fuel + 1) alloc T k v).2.max_size = T.max_size := by
  obtain ⟨i, hh, hi, hiu, s, hs, his, hpath⟩ :=
    hash_new_key inv (fun kv hkv => (hdk kv hkv).1) hlt
  have hres : hashmap_putFuel (fuel + 1) alloc T k v = (HASHMAP_OK, fillBucket T i k v) := by
    simp only [hashmap_putFuel, hh]
    rw [if_neg (ofNat_ne_full i), toNat_ofNat]
  rw [hres]
  exact ⟨rfl, inv_fill inv hk hdk hi hiu his hs hpath, rfl⟩

/-! ### Rehash rebuilds the table with the same pairs -/

theorem bucketAt_reset (T : Table) (j : Nat) :
    bucketAt { T with buckets := List.replicate (2 * T.max_size) emptyBucket,
                      max_size := 2 * T.max_size, cur_size := 0 } j = emptyBucket := by
  simp only [bucketAt]
  rcases Nat.lt_or_ge j (2 * T.max_size) with h | h
  · exact getD_replicate_lt _ _ h
  · exact getD_ge _ (by rw [List.length_replicate]; exact h)

theorem inv_reset {cmp : Nat → Nat → Int} {hsh : Nat → Nat} {T : Table}
    {stored : List (Nat × Nat)} (inv : HInv cmp hsh T stored) :
    HInv cmp hsh { T with buckets := List.replicate (2 * T.max_size) emptyBucket,
                          max_size := 2 * T.max_size, cur_size := 0 } [] := by
  refine ⟨?_, ?_, inv.cmp_eq, inv.hash_eq, rfl, ?_, List.Pairwise.nil, ?_, ?_, ?_, ?_⟩
  · simp [List.length_replicate]
  · show 0 < 2 * T.max_size
    have := inv.maxpos
    omega
  · intro kv hkv
    exact absurd hkv (List.not_mem_nil kv)
  · intro kv hkv
    exact absurd hkv (List.not_mem_nil kv)
  · intro j _ hju
    rw [bucketAt_reset] at hju
    simp [emptyBucket] at hju
  · intro a b _ _ _ hua _
    rw [bucketAt_reset] at hua
    simp [emptyBucket] at hua
  · intro j _ hju
    rw [bucketAt_reset] at hju
    simp [emptyBucket] at hju

theorem mem_slotsList {T : Table} {b : Bucket} :
    b ∈ slotsList T ↔ ∃ j, j < T.max_size ∧ bucketAt T j = b := by
  simp [slotsList, List.mem_map, List.mem_range]

theorem slots_occupied_mem {cmp : Nat → Nat → Int} {hsh : Nat → Nat}
    {T : Table} {stored : List (Nat × Nat)} (inv : HInv cmp hsh T stored)
    {b : Bucket} (hb : b ∈ slotsList T) (hu : b.in_use = true) :
    (b.key, b.value) ∈ stored := by
  obtain ⟨j, hj, hjb⟩ := mem_slotsList.mp hb
  rw [← hjb]
  exact inv.occ_stored j hj (by rw [hjb]; exact hu)

theorem slots_pairwise {cmp : Nat → Nat → Int} {hsh : Nat → Nat}
    {T : Table} {stored : List (Nat × Nat)} (inv : HInv cmp hsh T stored) :
    (slotsList T).Pairwise (fun b1 b2 => b1.in_use = true → b2.in_use = true →
      cmp b1.key b2.key ≠ 0 ∧ cmp b2.key b1.key ≠ 0) := by
  rw [slotsList, List.pairwise_map]
  refine List.Pairwise.imp_of_mem ?_ (List.pairwise_lt_range T.max_size)
  intro a b ha hb hlt hua hub
  rw [List.mem_range] at ha hb
  have hne : a ≠ b := Nat.ne_of_lt hlt
  exact ⟨inv.nodup a b ha hb hne hua hub, inv.nodup b a hb ha (Ne.symm hne) hub hua⟩

theorem slots_filter_map (T : Table) :
    ((slotsList T).filter (fun b => b.in_use)).map (fun b => (b.key, b.value)) =
      occupiedPairs T := by
  rw [slotsList, List.filter_map, List.map_map]
  rfl

theorem rehashLoop_new {cmp : Nat → Nat → Int} {hsh : Nat → Nat}
    (fuel : Nat) (alloc : Nat → Bool) :
    ∀ (bs : List Bucket) (T : Table) (stored : List (Nat × Nat)),
      HInv cmp hsh T stored →
      (∀ b ∈ bs, b.in_use = true → cmp b.key b.key = 0) →
      (∀ b ∈ bs, b.in_use = true → ∀ kv ∈ stored,
        cmp kv.1 b.key ≠ 0 ∧ cmp b.key kv.1 ≠ 0) →
      bs.Pairwise (fun b1 b2 => b1.in_use = true → b2.in_use = true →
        cmp b1.key b2.key ≠ 0 ∧ cmp b2.key b1.key ≠ 0) →
      stored.length + (bs.filter (fun b => b.in_use)).length ≤ T.max_size →
      (rehashLoopWith (hashmap_putFuel (fuel + 1) alloc) T bs).1 = HASHMAP_OK ∧
      HInv cmp hsh (rehashLoopWith (hashmap_putFuel (fuel + 1) alloc) T bs).2
        (stored ++ (bs.filter (fun b => b.in_use)).map (fun b => (b.key, b.value))) ∧
      (rehashLoopWith (hashmap_putFuel (fuel + 1) alloc) T bs).2.max_size = T.max_size := by
  intro bs
  induction bs with
  | nil =>
    intro T stored inv _ _ _ _
    refine ⟨rfl, ?_, rfl⟩
    simp only [List.filter_nil, List.map_nil, List.append_nil]
    exact inv
  | cons b bs ih =>
    intro T stored inv hrefl hdist hpw hlen
    obtain ⟨hpwhead, hpwtail⟩ := List.pairwise_cons.mp hpw
    by_cases hb : b.in_use
    · have hfl : ((b :: bs).filter (fun b => b.in_use)).length =
          (bs.filter (fun b => b.in_use)).length + 1 := by
        simp [List.filter_cons, hb]
      have hblen : stored.length < T.max_size := by omega
      obtain ⟨hok1, hinv1, hmax1⟩ := putFuel_new inv
        (hrefl b (List.mem_cons_self b bs) hb)
        (fun kv hkv => hdist b (List.mem_cons_self b bs) hb kv hkv)
        hblen b.value fuel alloc
      obtain ⟨st, T1, hp⟩ : ∃ st T1,
          hashmap_putFuel (fuel + 1) alloc T b.key b.value = (st, T1) := ⟨_, _, rfl⟩
      rw [hp] at hok1 hinv1 hmax1
      have hst : st = HASHMAP_OK := hok1
      have hinv1b : HInv cmp hsh T1 (stored ++ [(b.key, b.value)]) := hinv1
      have hmax1b : T1.max_size = T.max_size := hmax1
      have hred : rehashLoopWith (hashmap_putFuel (fuel + 1) alloc) T (b :: bs) =
          rehashLoopWith (hashmap_putFuel (fuel + 1) alloc) T1 bs := by
        simp [rehashLoopWith, hb, hp, hst]
      rw [hred]
      obtain ⟨hok2, hinv2, hmax2⟩ := ih T1 (stored ++ [(b.key, b.value)]) hinv1b
        (fun b2 hb2 hu2 => hrefl b2 (List.mem_cons_of_mem b hb2) hu2)
        (by
          intro b2 hb2 hu2 kv hkv
          rcases List.mem_append.mp hkv with h | h
          · exact hdist b2 (List.mem_cons_of_mem b hb2) hu2 kv h
          · rw [List.mem_singleton] at h
            rw [h]
            obtain ⟨h1, h2⟩ := hpwhead b2 hb2 hb hu2
            exact ⟨h1, h2⟩)
        hpwtail
        (by
          rw [List.length_append, List.length_singleton, hmax1b]
          omega)
      refine ⟨hok2, ?_, hmax2.trans hmax1b⟩
      rw [List.append_assoc, List.singleton_append] at hinv2
      have hgl : ((b :: bs).filter (fun b => b.in_use)).map (fun b => (b.key, b.value)) =
          (b.key, b.value) :: (bs.filter (fun b => b.in_use)).map (fun b => (b.key, b.value)) := by
        simp [List.filter_cons, hb]
      rw [hgl]
      exact hinv2
    · have hred : rehashLoopWith (hashmap_putFuel (fuel + 1) alloc) T (b :: bs) =
          rehashLoopWith (hashmap_putFuel (fuel + 1) alloc) T bs := by
        simp [rehashLoopWith, hb]
      have hgl : (b :: bs).filter (fun b => b.in_use) = bs.filter (fun b => b.in_use) := by
        simp [List.filter_cons, hb]
      rw [hred, hgl]
      rw [hgl] at hlen
      exact ih T stored inv
        (fun b2 hb2 hu2 => hrefl b2 (List.mem_cons_of_mem b hb2) hu2)
        (fun b2 hb2 hu2 kv hkv => hdist b2 (List.mem_cons_of_mem b hb2) hu2 kv hkv)
        hpwtail hlen

theorem rehash_ok {cmp : Nat → Nat → Int} {hsh : Nat → Nat} {T : Table}
    {stored : List (Nat × Nat)} (inv : HInv cmp hsh T stored)
    (fuel : Nat) (alloc : Nat → Bool) (halloc : alloc (2 * T.max_size) = true) :
    (rehashWith (hashmap_putFuel (fuel + 1) alloc) alloc T).1 = HASHMAP_OK ∧
    HInv cmp hsh (rehashWith (hashmap_putFuel (fuel + 1) alloc) alloc T).2
      (occupiedPairs T) ∧
    (rehashWith (hashmap_putFuel (fuel + 1) alloc) alloc T).2.max_size =
      2 * T.max_size := by
  obtain ⟨hok, hinv, hmax⟩ := rehashLoop_new fuel alloc (slotsList T)
    { T with buckets := List.replicate (2 * T.max_size) emptyBucket,
             max_size := 2 * T.max_size, cur_size := 0 }
    [] (inv_reset inv)
    (fun b hb hu => inv.stored_refl _ (slots_occupied_mem inv hb hu))
    (fun b _ _ kv hkv => absurd hkv (List.not_mem_nil kv))
    (slots_pairwise inv)
    (by
      show 0 + ((slotsList T).filter (fun b => b.in_use)).length ≤ 2 * T.max_size
      have h1 : ((slotsList T).filter (fun b => b.in_use)).length ≤ (slotsList T).length :=
        List.length_filter_le _ _
      have h2 : (slotsList T).length = T.max_size := by
        rw [slotsList, List.length_map, List.length_range]
      omega)
  rw [List.nil_append, slots_filter_map] at hinv
  have hred : rehashWith (hashmap_putFuel (fuel + 1) alloc) alloc T =
      rehashLoopWith (hashmap_putFuel (fuel + 1) alloc)
        { T with buckets := List.replicate (2 * T.max_size) emptyBucket,
                 max_size := 2 * T.max_size, cur_size := 0 }
        (slotsList T) := by
    rw [rehashWith, if_pos halloc]
  rw [hred]
  exact ⟨hok, hinv, hmax⟩

theorem put_full {cmp : Nat → Nat → Int} {hsh : Nat → Nat} {T : Table}
    {stored : List (Nat × Nat)} {k : Nat} (inv : HInv cmp hsh T stored)
    (hfull : T.cur_size = T.max_size) (hk : cmp k k = 0)
    (hdk : ∀ kv ∈ stored, cmp kv.1 k ≠ 0 ∧ cmp k kv.1 ≠ 0) (v : Nat) :
    (hashmap_put allocTrue T k v).1 = HASHMAP_OK ∧
    HInv cmp hsh (hashmap_put allocTrue T k v).2 (occupiedPairs T ++ [(k, v)]) ∧
    (hashmap_put allocTrue T k v).2.max_size = 2 * T.max_size := by
  have hhash : hashmap_hash T k = HASHMAP_FULL := by
    rw [hashmap_hash, if_pos hfull]
  obtain ⟨hok1, hinv1, hmax1⟩ := rehash_ok inv 0 allocTrue rfl
  obtain ⟨st, T2, hr⟩ : ∃ st T2,
      rehashWith (hashmap_putFuel (0 + 1) allocTrue) allocTrue T = (st, T2) := ⟨_, _, rfl⟩
  rw [hr] at hok1 hinv1 hmax1
  have hst : st = HASHMAP_OK := hok1
  have hinv2 : HInv cmp hsh T2 (occupiedPairs T) := hinv1
  have hmax2 : T2.max_size = 2 * T.max_size := hmax1
  have hdk2 : ∀ kv ∈ occupiedPairs T, cmp kv.1 k ≠ 0 ∧ cmp k kv.1 ≠ 0 := by
    intro kv hkv
    obtain ⟨j, hj, hu, hkey, hval⟩ := mem_occupiedPairs.mp hkv
    have hmem := inv.occ_stored j hj hu
    exact ⟨by rw [← hkey]; exact (hdk _ hmem).1, by rw [← hkey]; exact (hdk _ hmem).2⟩
  have hlt : (occupiedPairs T).length < T2.max_size := by
    have h1 := occupiedPairs_length_le T
    have h2 := inv.maxpos
    omega
  obtain ⟨hok3, hinv3, hmax3⟩ := putFuel_new hinv2 hk hdk2 hlt v 0 allocTrue
  have hput : hashmap_put allocTrue T k v = hashmap_putFuel (0 + 1) allocTrue T2 k v := by
    have h0 : hashmap_put allocTrue T k v =
        hashmap_putFuel ((0 + 1) + 1) allocTrue T k v := rfl
    rw [h0, putFuel_succ_eq, if_pos hhash, hr]
    show (if st = HASHMAP_OK then hashmap_putFuel (0 + 1) allocTrue T2 k v
          else (HASHMAP_FULL, T2)) = hashmap_putFuel (0 + 1) allocTrue T2 k v
    rw [if_pos hst]
  rw [hput]
  exact ⟨hok3, hinv3, hmax3.trans hmax2⟩

/-! ### Folding put over a list of pairs -/

theorem putList_append (alloc : Nat → Bool) :
    ∀ (l1 l2 : List (Nat × Nat)) (T : Table),
      (putList alloc T (l1 ++ l2)).1 =
        (putList alloc T l1).1 ++ (putList alloc (putList alloc T l1).2 l2).1 ∧
      (putList alloc T (l1 ++ l2)).2 = (putList alloc (putList alloc T l1).2 l2).2 := by
  intro l1
  induction l1 with
  | nil =>
    intro l2 T
    exact ⟨rfl, rfl⟩
  | cons kv rest ih =>
    intro l2 T
    obtain ⟨st, T1, hp⟩ : ∃ st T1, hashmap_put alloc T kv.1 kv.2 = (st, T1) := ⟨_, _, rfl⟩
    obtain ⟨ss, T2, hq⟩ : ∃ ss T2, putList alloc T1 (rest ++ l2) = (ss, T2) := ⟨_, _, rfl⟩
    obtain ⟨ss1, T1b, hq1⟩ : ∃ ss1 T1b, putList alloc T1 rest = (ss1, T1b) := ⟨_, _, rfl⟩
    have h1 : putList alloc T ((kv :: rest) ++ l2) = (st :: ss, T2) := by
      simp [putList, hp, hq]
    have h2 : putList alloc T (kv :: rest) = (st :: ss1, T1b) := by
      simp [putList, hp, hq1]
    obtain ⟨ihl, ihr⟩ := ih l2 T1
    rw [hq, hq1] at ihl ihr
    rw [h1, h2]
    constructor
    · show st :: ss = (st :: ss1) ++ (putList alloc T1b l2).1
      rw [List.cons_append]
      exact congrArg (st :: ·) ihl
    · exact ihr

theorem putList_new {cmp : Nat → Nat → Int} {hsh : Nat → Nat} (alloc : Nat → Bool) :
    ∀ (kvs : List (Nat × Nat)) (T : Table) (stored : List (Nat × Nat)),
      HInv cmp hsh T stored →
      (∀ kv ∈ kvs, cmp kv.1 kv.1 = 0) →
      kvs.Pairwise (fun a b => cmp a.1 b.1 ≠ 0 ∧ cmp b.1 a.1 ≠ 0) →
      (∀ kv ∈ kvs, ∀ kv2 ∈ stored, cmp kv2.1 kv.1 ≠ 0 ∧ cmp kv.1 kv2.1 ≠ 0) →
      stored.length + kvs.length ≤ T.max_size →
      (∀ st ∈ (putList alloc T kvs).1, st = HASHMAP_OK) ∧
      HInv cmp hsh (putList alloc T kvs).2 (stored ++ kvs) ∧
      (putList alloc T kvs).2.max_size = T.max_size := by
  intro kvs
  induction kvs with
  | nil =>
    intro T stored inv _ _ _ _
    refine ⟨fun st hst => absurd hst (List.not_mem_nil st), ?_, rfl⟩
    rw [List.append_nil]
    exact inv
  | cons kv rest ih =>
    intro T stored inv hrefl hpw hdist hlen
    obtain ⟨hpwh, hpwt⟩ := List.pairwise_cons.mp hpw
    rw [List.length_cons] at hlen
    obtain ⟨hok1, hinv1, hmax1⟩ := putFuel_new inv
      (hrefl kv (List.mem_cons_self kv rest))
      (fun kv2 h2 => hdist kv (List.mem_cons_self kv rest) kv2 h2)
      (by omega) kv.2 1 alloc
    obtain ⟨st, T1, hp⟩ : ∃ st T1, hashmap_put alloc T kv.1 kv.2 = (st, T1) := ⟨_, _, rfl⟩
    have hp2 : hashmap_putFuel (1 + 1) alloc T kv.1 kv.2 = (st, T1) := hp
    rw [hp2] at hok1 hinv1 hmax1
    have hst : st = HASHMAP_OK := hok1
    have hinv1b : HInv cmp hsh T1 (stored ++ [kv]) := by
      have h := hinv1
      rwa [Prod.mk.eta] at h
    have hmax1b : T1.max_size = T.max_size := hmax1
    obtain ⟨ss, T2, hq⟩ : ∃ ss T2, putList alloc T1 rest = (ss, T2) := ⟨_, _, rfl⟩
    have hred : putList alloc T (kv :: rest) = (st :: ss, T2) := by
      simp [putList, hp, hq]
    rw [hred]
    obtain ⟨hok2, hinv2, hmax2⟩ := ih T1 (stored ++ [kv]) hinv1b
      (fun kv2 h2 => hrefl kv2 (List.mem_cons_of_mem kv h2))
      hpwt
      (by
        intro kv2 h2 kv3 h3
        rcases List.mem_append.mp h3 with h | h
        · exact hdist kv2 (List.mem_cons_of_mem kv h2) kv3 h
        · rw [List.mem_singleton] at h
          rw [h]
          exact hpwh kv2 h2)
      (by
        rw [List.length_append, List.length_singleton, hmax1b]
        omega)
    rw [hq] at hok2 hinv2 hmax2
    refine ⟨?_, ?_, hmax2.trans hmax1b⟩
    · intro st2 hst2
      rcases List.mem_cons.mp hst2 with h | h
      · rw [h]; exact hst
      · exact hok2 st2 h
    · rw [List.append_assoc, List.singleton_append] at hinv2
      exact hinv2

/-! ### The freshly created table -/

theorem bucketAt_new (n : Nat) (cmp : Nat → Nat → Int) (hsh : Nat → Nat)
    (j : Nat) : bucketAt (hashmap_new n cmp hsh) j = emptyBucket := by
  simp only [hashmap_new, bucketAt]
  rcases Nat.lt_or_ge j (if n = 0 then HASHMAP_DEFAULT_SIZE else n) with h | h
  · exact getD_replicate_lt _ _ h
  · exact getD_ge _ (by rw [List.length_replicate]; exact h)

theorem hashmap_new_max {n : Nat} (hn : 1 ≤ n) (cmp : Nat → Nat → Int)
    (hsh : Nat → Nat) : (hashmap_new n cmp hsh).max_size = n := by
  show (if n = 0 then HASHMAP_DEFAULT_SIZE else n) = n
  rw [if_neg (by omega)]

theorem inv_new (n : Nat) (cmp : Nat → Nat → Int) (hsh : Nat → Nat) :
    HInv cmp hsh (hashmap_new n cmp hsh) [] := by
  refine ⟨?_, ?_, rfl, rfl, rfl, ?_, List.Pairwise.nil, ?_, ?_, ?_, ?_⟩
  · show (List.replicate (if n = 0 then HASHMAP_DEFAULT_SIZE else n) emptyBucket).length =
      (if n = 0 then HASHMAP_DEFAULT_SIZE else n)
    rw [List.length_replicate]
  · show 0 < (if n = 0 then HASHMAP_DEFAULT_SIZE else n)
    by_cases h : n = 0
    · rw [if_pos h]
      rw [HASHMAP_DEFAULT_SIZE]
      omega
    · rw [if_neg h]
      omega
  · intro kv hkv
    exact absurd hkv (List.not_mem_nil kv)
  · intro kv hkv
    exact absurd hkv (List.not_mem_nil kv)
  · intro j _ hju
    rw [bucketAt_new] at hju
    simp [emptyBucket] at hju
  · intro a b _ _ _ hua _
    rw [bucketAt_new] at hua
    simp [emptyBucket] at hua
  · intro j _ hju
    rw [bucketAt_new] at hju
    simp [emptyBucket] at hju

/-! ### Capacity growth: max_size + 1 distinct keys all fit and stay retrievable -/

theorem capacity_growth {n : Nat} (hn : 1 ≤ n) (cmp : Nat → Nat → Int)
    (hsh : Nat → Nat) (kvs : List (Nat × Nat)) (hlen : kvs.length = n + 1)
    (hrefl : ∀ kv ∈ kvs, cmp kv.1 kv.1 = 0)
    (hdist : kvs.Pairwise (fun a b => cmp a.1 b.1 ≠ 0 ∧ cmp b.1 a.1 ≠ 0)) :
    (∀ st ∈ (putList allocTrue (hashmap_new n cmp hsh) kvs).1, st = HASHMAP_OK) ∧
    (putList allocTrue (hashmap_new n cmp hsh) kvs).2.max_size = 2 * n ∧
    ∀ kv ∈ kvs, hashmap_get (putList allocTrue (hashmap_new n cmp hsh) kvs).2 kv.1 =
      (HASHMAP_OK, some kv.2) := by
  have hne : kvs ≠ [] := by
    intro h
    rw [h] at hlen
    simp at hlen
  obtain ⟨front, lastkv, hsplit⟩ : ∃ front lastkv, kvs = front ++ [lastkv] :=
    ⟨kvs.dropLast, kvs.getLast hne, (List.dropLast_append_getLast hne).symm⟩
  have hfrontlen : front.length = n := by
    have h := congrArg List.length hsplit
    rw [List.length_append, List.length_singleton, hlen] at h
    omega
  subst hsplit
  have hmax0 := hashmap_new_max hn cmp hsh
  obtain ⟨hpw1, _, hcross⟩ := List.pairwise_append.mp hdist
  obtain ⟨hok1, hinv1, hmax1⟩ := putList_new allocTrue front (hashmap_new n cmp hsh) []
    (inv_new n cmp hsh)
    (fun kv h => hrefl kv (List.mem_append_left _ h))
    hpw1
    (fun kv _ kv2 h2 => absurd h2 (List.not_mem_nil kv2))
    (by simp only [List.length_nil]; rw [hmax0, hfrontlen]; omega)
  obtain ⟨ss1, T1, hq1⟩ : ∃ ss1 T1,
      putList allocTrue (hashmap_new n cmp hsh) front = (ss1, T1) := ⟨_, _, rfl⟩
  rw [hq1] at hok1 hinv1 hmax1
  have hok1b : ∀ st ∈ ss1, st = HASHMAP_OK := hok1
  have hinv1b : HInv cmp hsh T1 front := by
    have h : HInv cmp hsh T1 ([] ++ front) := hinv1
    rwa [List.nil_append] at h
  have hmax1b : T1.max_size = n := by
    have h : T1.max_size = (hashmap_new n cmp hsh).max_size := hmax1
    rw [h, hmax0]
  have hfull : T1.cur_size = T1.max_size := by
    rw [hinv1b.cur, hmax1b, hfrontlen]
  have hkl : cmp lastkv.1 lastkv.1 = 0 :=
    hrefl lastkv (List.mem_append_right _ (List.mem_singleton.mpr rfl))
  have hdl : ∀ kv ∈ front, cmp kv.1 lastkv.1 ≠ 0 ∧ cmp lastkv.1 kv.1 ≠ 0 :=
    fun kv hkv => hcross kv hkv lastkv (List.mem_singleton.mpr rfl)
  obtain ⟨hok2, hinv2, hmax2⟩ := put_full hinv1b hfull hkl hdl lastkv.2
  obtain ⟨st, Tf, hp⟩ : ∃ st Tf,
      hashmap_put allocTrue T1 lastkv.1 lastkv.2 = (st, Tf) := ⟨_, _, rfl⟩
  rw [hp] at hok2 hinv2 hmax2
  have hst : st = HASHMAP_OK := hok2
  have hinvf : HInv cmp hsh Tf (occupiedPairs T1 ++ [lastkv]) := by
    have h : HInv cmp hsh Tf (occupiedPairs T1 ++ [(lastkv.1, lastkv.2)]) := hinv2
    rwa [Prod.mk.eta] at h
  have hmaxf : Tf.max_size = 2 * n := by
    have h : Tf.max_size = 2 * T1.max_size := hmax2
    rw [h, hmax1b]
  have hsingle : putList allocTrue T1 [lastkv] = ([st], Tf) := by
    simp [putList, hp]
  obtain ⟨hal, har⟩ := putList_append allocTrue front [lastkv] (hashmap_new n cmp hsh)
  rw [hq1] at hal har
  have hfin2 : (putList allocTrue (hashmap_new n cmp hsh) (front ++ [lastkv])).2 = Tf := by
    have h : (putList allocTrue (hashmap_new n cmp hsh) (front ++ [lastkv])).2 =
        (putList allocTrue T1 [lastkv]).2 := har
    rw [h, hsingle]
  have hfin1 : (putList allocTrue (hashmap_new n cmp hsh) (front ++ [lastkv])).1 =
      ss1 ++ [st] := by
    have h : (putList allocTrue (hashmap_new n cmp hsh) (front ++ [lastkv])).1 =
        ss1 ++ (putList allocTrue T1 [lastkv]).1 := hal
    rw [h, hsingle]
  refine ⟨?_, ?_, ?_⟩
  · intro st2 h2
    rw [hfin1] at h2
    rcases List.mem_append.mp h2 with h | h
    · exact hok1b st2 h
    · rw [List.mem_singleton] at h
      rw [h]
      exact hst
  · rw [hfin2, hmaxf]
  · intro kv hkv
    rw [hfin2]
    rcases List.mem_append.mp hkv with h | h
    · exact find_stored hinvf
        (List.mem_append_left _ (stored_mem_occupiedPairs hinv1b h))
    · rw [List.mem_singleton] at h
      rw [h]
      exact find_stored hinvf (List.mem_append_right _ (List.mem_singleton.mpr rfl))

/-! ### Lookup and removal when the key occupies exactly one bucket -/

theorem find_unique {T : Table} {k j : Nat}
    (hj : j < T.max_size) (hju : (bucketAt T j).in_use = true)
    (hjk : T.compare (bucketAt T j).key k = 0)
    (huniq : ∀ i, i < T.max_size → i ≠ j →
      ¬((bucketAt T i).in_use = true ∧ T.compare (bucketAt T i).key k = 0))
    (hcur : T.cur_size ≠ 0) :
    hashmap_find T k = Int.ofNat j := by
  have hmax : 0 < T.max_size := Nat.lt_of_le_of_lt (Nat.zero_le j) hj
  have hstart : T.hash k % T.max_size < T.max_size := Nat.mod_lt _ hmax
  obtain ⟨s, hs, hjs⟩ := probe_surj (T.hash k % T.max_size) j hstart hj
  rw [hashmap_find, if_neg hcur]
  have hit := @probeLoop_first_hit T.max_size (findCond T k)
    HASHMAP_NOT_FOUND s T.max_size (T.hash k % T.max_size)
    hstart hs ?_ ?_
  · rw [hit, hjs]
  · intro t ht
    set idx := (T.hash k % T.max_size + t) % T.max_size with hidx
    have hlt : idx < T.max_size := Nat.mod_lt _ hmax
    have hne : idx ≠ j := by
      rw [← hjs]
      intro he
      exact absurd (probe_inj (Nat.lt_trans ht hs) hs he) (Nat.ne_of_lt ht)
    have h := huniq idx hlt hne
    rw [findCond]
    by_cases h1 : T.compare (bucketAt T idx).key k = 0
    · by_cases h2 : (bucketAt T idx).in_use = true
      · exact absurd ⟨h2, h1⟩ h
      · simp [h1, h2]
    · simp [h1]
  · rw [hjs, findCond]
    simp [hjk, hju]

theorem remove_unique {T : Table} {k j : Nat}
    (hwf : T.buckets.length = T.max_size)
    (hj : j < T.max_size) (hju : (bucketAt T j).in_use = true)
    (hjk : T.compare (bucketAt T j).key k = 0)
    (huniq : ∀ i, i < T.max_size → i ≠ j →
      ¬((bucketAt T i).in_use = true ∧ T.compare (bucketAt T i).key k = 0))
    (hcur : T.cur_size ≠ 0) :
    hashmap_remove T k = (HASHMAP_OK, some (bucketAt T j).value,
      { T with buckets := T.buckets.set j { bucketAt T j with in_use := false },
               cur_size := T.cur_size - 1, changed := true }) ∧
    (hashmap_get { T with
        buckets := T.buckets.set j { bucketAt T j with in_use := false },
        cur_size := T.cur_size - 1, changed := true } k).1 =
      (if T.cur_size - 1 = 0 then HASHMAP_EMPTY else HASHMAP_NOT_FOUND) := by
  have hmax : 0 < T.max_size := Nat.lt_of_le_of_lt (Nat.zero_le j) hj
  have hfind := find_unique hj hju hjk huniq hcur
  constructor
  · simp only [hashmap_remove, hfind]
    rw [if_neg (ofNat_not_neg j), toNat_ofNat]
  · set T2 : Table :=
      { T with buckets := T.buckets.set j { bucketAt T j with in_use := false },
               cur_size := T.cur_size - 1, changed := true } with hT2
    have hb2j : bucketAt T2 j = { bucketAt T j with in_use := false } := by
      rw [hT2]
      show (T.buckets.set j { bucketAt T j with in_use := false }).getD j emptyBucket = _
      exact getD_set_self _ _ _ _ (by rw [hwf]; exact hj)
    have hb2ne : ∀ i, i ≠ j → bucketAt T2 i = bucketAt T i := by
      intro i hi
      rw [hT2]
      show (T.buckets.set j { bucketAt T j with in_use := false }).getD i emptyBucket =
        T.buckets.getD i emptyBucket
      exact getD_set_ne _ _ _ (fun he => hi he.symm)
    by_cases hz : T.cur_size - 1 = 0
    · rw [if_pos hz]
      have hfind2 : hashmap_find T2 k = HASHMAP_EMPTY := by
        rw [hashmap_find, if_pos hz]
      simp only [hashmap_get, hfind2]
      rw [if_pos (by decide : HASHMAP_EMPTY < (0 : Int))]
    · rw [if_neg hz]
      have hfind2 : hashmap_find T2 k = HASHMAP_NOT_FOUND := by
        rw [hashmap_find, if_neg hz]
        apply probeLoop_all_fail T.max_size (T.hash k % T.max_size)
          (Nat.mod_lt _ hmax)
        intro t _
        set idx := (T.hash k % T.max_size + t) % T.max_size with hidx
        have hlt : idx < T.max_size := Nat.mod_lt _ hmax
        rw [findCond]
        by_cases he : idx = j
        · rw [he, hb2j]
          simp
        · rw [hb2ne idx he]
          have h := huniq idx hlt he
          by_cases h1 : T.compare (bucketAt T idx).key k = 0
          · by_cases h2 : (bucketAt T idx).in_use = true
            · exact absurd ⟨h2, h1⟩ h
            · simp [h1, h2]
          · simp [h1]
      simp only [hashmap_get, hfind2]
      rw [if_pos (by decide : HASHMAP_NOT_FOUND < (0 : Int))]

/-! ### The iteration entry points against their specification -/

theorem iterLoop_nocheck (fn : Nat → Int) :
    ∀ bs : List Bucket, iterLoop fn false bs =
      (HASHMAP_OK, (bs.filter (fun b => b.in_use)).map (fun b => b.value)) := by
  intro bs
  induction bs with
  | nil => rfl
  | cons b bs ih =>
    by_cases hb : b.in_use
    · simp [iterLoop, hb, ih, List.filter_cons]
    · simp [iterLoop, hb, ih, List.filter_cons]

theorem iterLoop_check (fn : Nat → Int) :
    ∀ bs : List Bucket, iterLoop fn true bs =
      runCheckSpec fn ((bs.filter (fun b => b.in_use)).map (fun b => b.value)) := by
  intro bs
  induction bs with
  | nil => rfl
  | cons b bs ih =>
    by_cases hb : b.in_use
    · by_cases hs : fn b.value = HASHMAP_OK
      · simp [iterLoop, runCheckSpec, hb, hs, ih, List.filter_cons]
      · simp [iterLoop, runCheckSpec, hb, hs, List.filter_cons]
    · simp [iterLoop, hb, ih, List.filter_cons]

theorem occupiedValues_slots (T : Table) :
    ((slotsList T).filter (fun b => b.in_use)).map (fun b => b.value) =
      occupiedValues T := by
  rw [slotsList, List.filter_map, List.map_map]
  rfl

theorem iterate_spec (T : Table) (fn : Nat → Int)
    (hz : T.cur_size = 0 → occupiedValues T = []) :
    hashmap_iterate T fn = (HASHMAP_OK, occupiedValues T) ∧
    hashmap_iterate_check_ok_status T fn = runCheckSpec fn (occupiedValues T) := by
  by_cases hc : T.cur_size = 0
  · rw [hashmap_iterate, hashmap_iterate_check_ok_status, hashmap_iterate_impl,
      if_pos hc, hashmap_iterate_impl, if_pos hc, hz hc]
    exact ⟨rfl, rfl⟩
  · rw [hashmap_iterate, hashmap_iterate_check_ok_status, hashmap_iterate_impl,
      if_neg hc, hashmap_iterate_impl, if_neg hc]
    exact ⟨by rw [iterLoop_nocheck, occupiedValues_slots],
      by rw [iterLoop_check, occupiedValues_slots]⟩

/-! ### Queries against an empty table, and put after a failed rehash -/

theorem empty_get_remove (T : Table) (k : Nat) (hz : T.cur_size = 0) :
    hashmap_get T k = (HASHMAP_EMPTY, none) ∧
    hashmap_remove T k = (HASHMAP_EMPTY, none, T) := by
  have hf : hashmap_find T k = HASHMAP_EMPTY := by
    rw [hashmap_find, if_pos hz]
  constructor
  · simp only [hashmap_get, hf]
    rw [if_pos (by decide : HASHMAP_EMPTY < (0 : Int))]
  · simp only [hashmap_remove, hf]
    rw [if_pos (by decide : HASHMAP_EMPTY < (0 : Int))]

theorem put_rehash_alloc_fail {alloc : Nat → Bool} {T : Table} {k v : Nat}
    (hfull : hashmap_hash T k = HASHMAP_FULL)
    (halloc : alloc (2 * T.max_size) = false) :
    hashmap_put alloc T k v = (HASHMAP_FULL, T) := by
  have h0 : hashmap_put alloc T k v = hashmap_putFuel (1 + 1) alloc T k v := rfl
  rw [h0, putFuel_succ_eq, if_pos hfull]
  have hre : rehashWith (hashmap_putFuel 1 alloc) alloc T = (HASHMAP_ERR, T) := by
    rw [rehashWith, if_neg (by simp [halloc])]
  rw [hre]
  show (if HASHMAP_ERR = HASHMAP_OK then hashmap_putFuel 1 alloc T k v
        else (HASHMAP_FULL, T)) = (HASHMAP_FULL, T)
  rw [if_neg (by decide)]

/-! ### Claim theorems -/

/-- C1: the claim says put on an already-stored key overwrites the value and
leaves the live count unchanged.  The code violates the count half: on a
fresh capacity-4 table, put(5,7) then put(5,9) leaves get(5) = 9 as claimed,
but the live count is 2 after the second put instead of 1, because
hashmap_put increments _cur_size unconditionally, also on an overwrite. -/
theorem C1_overwrite_increments_count :
    (putList allocTrue (hashmap_new 4 cmpEx hshEx) [(5, 7)]).2.cur_size = 1 ∧
    (putList allocTrue (hashmap_new 4 cmpEx hshEx) [(5, 7), (5, 9)]).1 =
      [HASHMAP_OK, HASHMAP_OK] ∧
    hashmap_get (putList allocTrue (hashmap_new 4 cmpEx hshEx) [(5, 7), (5, 9)]).2 5 =
      (HASHMAP_OK, some 9) ∧
    (putList allocTrue (hashmap_new 4 cmpEx hshEx) [(5, 7), (5, 9)]).2.cur_size = 2 := by
  decide

/-- C2: the claim says no two occupied slots ever hold compare-equal keys in
any reachable state.  The code violates it: on a capacity-3 table whose hash
sends every key to slot 0, put(10), put(20), remove(10), put(20) leaves
slots 0 and 1 both occupied and both holding key 20 (the final put reuses
the vacated slot 0 before the probe reaches the existing copy in slot 1). -/
theorem C2_duplicate_after_remove :
    (bucketAt (hashmap_put allocTrue
        (hashmap_remove
          (putList allocTrue (hashmap_new 3 cmpEx hshZero) [(10, 1), (20, 2)]).2
          10).2.2
        20 99).2 0).in_use = true ∧
    (bucketAt (hashmap_put allocTrue
        (hashmap_remove
          (putList allocTrue (hashmap_new 3 cmpEx hshZero) [(10, 1), (20, 2)]).2
          10).2.2
        20 99).2 1).in_use = true ∧
    (hashmap_put allocTrue
        (hashmap_remove
          (putList allocTrue (hashmap_new 3 cmpEx hshZero) [(10, 1), (20, 2)]).2
          10).2.2
        20 99).2.compare
      (bucketAt (hashmap_put allocTrue
        (hashmap_remove
          (putList allocTrue (hashmap_new 3 cmpEx hshZero) [(10, 1), (20, 2)]).2
          10).2.2
        20 99).2 0).key
      (bucketAt (hashmap_put allocTrue
        (hashmap_remove
          (putList allocTrue (hashmap_new 3 cmpEx hshZero) [(10, 1), (20, 2)]).2
          10).2.2
        20 99).2 1).key = 0 := by
  decide

/-- C3 counterexample: the claim as stated says a get after removing a
stored key returns NotFound; on a fresh table holding only that key the
subsequent get returns Empty instead (the lookup reports Empty whenever the
live count is zero), refuting the claim at this input. -/
theorem C3_counterexample :
    (hashmap_remove (putList allocTrue (hashmap_new 4 cmpEx hshEx) [(5, 7)]).2 5).1 =
      HASHMAP_OK ∧
    (hashmap_remove (putList allocTrue (hashmap_new 4 cmpEx hshEx) [(5, 7)]).2 5).2.1 =
      some 7 ∧
    (hashmap_get
      (hashmap_remove (putList allocTrue (hashmap_new 4 cmpEx hshEx) [(5, 7)]).2 5).2.2
      5).1 = HASHMAP_EMPTY ∧
    HASHMAP_EMPTY ≠ HASHMAP_NOT_FOUND := by
  decide

/-- C3 (amended): for a table in which key k occupies exactly one bucket,
remove(T, k) returns the stored value, clears only that bucket occupancy
flag, decrements the live count by exactly 1 and marks the cache dirty; a
subsequent get(T, k) returns NotFound when live entries remain and Empty
when the count dropped to zero. -/
theorem C3_remove_hit {T : Table} {k j : Nat}
    (hwf : T.buckets.length = T.max_size)
    (hj : j < T.max_size) (hju : (bucketAt T j).in_use = true)
    (hjk : T.compare (bucketAt T j).key k = 0)
    (huniq : ∀ i, i < T.max_size → i ≠ j →
      ¬((bucketAt T i).in_use = true ∧ T.compare (bucketAt T i).key k = 0))
    (hcur : T.cur_size ≠ 0) :
    hashmap_remove T k = (HASHMAP_OK, some (bucketAt T j).value,
      { T with buckets := T.buckets.set j { bucketAt T j with in_use := false },
               cur_size := T.cur_size - 1, changed := true }) ∧
    (hashmap_get { T with
        buckets := T.buckets.set j { bucketAt T j with in_use := false },
        cur_size := T.cur_size - 1, changed := true } k).1 =
      (if T.cur_size - 1 = 0 then HASHMAP_EMPTY else HASHMAP_NOT_FOUND) :=
  remove_unique hwf hj hju hjk huniq hcur

theorem C3_witness :
    (hashmap_remove (putList allocTrue (hashmap_new 4 cmpEx hshEx) [(5, 7), (6, 8)]).2 5 =
      (HASHMAP_OK,
       some (bucketAt (putList allocTrue (hashmap_new 4 cmpEx hshEx) [(5, 7), (6, 8)]).2 1).value,
       { (putList allocTrue (hashmap_new 4 cmpEx hshEx) [(5, 7), (6, 8)]).2 with
         buckets := (putList allocTrue (hashmap_new 4 cmpEx hshEx) [(5, 7), (6, 8)]).2.buckets.set 1
           { bucketAt (putList allocTrue (hashmap_new 4 cmpEx hshEx) [(5, 7), (6, 8)]).2 1 with
             in_use := false },
         cur_size := (putList allocTrue (hashmap_new 4 cmpEx hshEx) [(5, 7), (6, 8)]).2.cur_size - 1,
         changed := true }) ∧
     (hashmap_get { (putList allocTrue (hashmap_new 4 cmpEx hshEx) [(5, 7), (6, 8)]).2 with
         buckets := (putList allocTrue (hashmap_new 4 cmpEx hshEx) [(5, 7), (6, 8)]).2.buckets.set 1
           { bucketAt (putList allocTrue (hashmap_new 4 cmpEx hshEx) [(5, 7), (6, 8)]).2 1 with
             in_use := false },
         cur_size := (putList allocTrue (hashmap_new 4 cmpEx hshEx) [(5, 7), (6, 8)]).2.cur_size - 1,
         changed := true } 5).1 =
      (if (putList allocTrue (hashmap_new 4 cmpEx hshEx) [(5, 7), (6, 8)]).2.cur_size - 1 = 0
       then HASHMAP_EMPTY else HASHMAP_NOT_FOUND)) :=
  C3_remove_hit (by decide) (by decide) (by decide) (by decide) (by decide) (by decide)

/-- C4 counterexample: the claim as stated says put propagates the
underlying allocation error when the rehash cannot allocate; on a full
capacity-2 table with a failing allocator, put returns HASHMAP_FULL, which
is not the allocation error code HASHMAP_ERR, refuting the claim at this
input (the table is left unchanged, as the claim also says). -/
theorem C4_counterexample :
    (hashmap_put allocFalse
      (putList allocTrue (hashmap_new 2 cmpEx hshEx) [(0, 5), (1, 6)]).2 3 9).1 =
      HASHMAP_FULL ∧
    (hashmap_put allocFalse
      (putList allocTrue (hashmap_new 2 cmpEx hshEx) [(0, 5), (1, 6)]).2 3 9).1 ≠
      HASHMAP_ERR ∧
    (hashmap_put allocFalse
      (putList allocTrue (hashmap_new 2 cmpEx hshEx) [(0, 5), (1, 6)]).2 3 9).2.buckets =
      (putList allocTrue (hashmap_new 2 cmpEx hshEx) [(0, 5), (1, 6)]).2.buckets ∧
    (hashmap_put allocFalse
      (putList allocTrue (hashmap_new 2 cmpEx hshEx) [(0, 5), (1, 6)]).2 3 9).2.cur_size = 2 ∧
    (hashmap_put allocFalse
      (putList allocTrue (hashmap_new 2 cmpEx hshEx) [(0, 5), (1, 6)]).2 3 9).2.max_size = 2 := by
  decide

/-- C4 (amended): when the table reports full and the rehash triggered
inside put cannot allocate the doubled slot array, put returns the Full
result code HASHMAP_FULL (not the underlying allocation error HASHMAP_ERR)
and leaves the table state entirely unchanged. -/
theorem C4_rehash_fail_full_unchanged {alloc : Nat → Bool} {T : Table} {k v : Nat}
    (hfull : hashmap_hash T k = HASHMAP_FULL)
    (halloc : alloc (2 * T.max_size) = false) :
    hashmap_put alloc T k v = (HASHMAP_FULL, T) ∧ HASHMAP_FULL ≠ HASHMAP_ERR :=
  ⟨put_rehash_alloc_fail hfull halloc, by decide⟩

theorem C4_witness :
    hashmap_hash (putList allocTrue (hashmap_new 2 cmpEx hshEx) [(0, 5), (1, 6)]).2 3 =
      HASHMAP_FULL ∧
    (hashmap_put allocFalse
        (putList allocTrue (hashmap_new 2 cmpEx hshEx) [(0, 5), (1, 6)]).2 3 9 =
      (HASHMAP_FULL, (putList allocTrue (hashmap_new 2 cmpEx hshEx) [(0, 5), (1, 6)]).2) ∧
     HASHMAP_FULL ≠ HASHMAP_ERR) :=
  ⟨by decide, C4_rehash_fail_full_unchanged (by decide) rfl⟩

/-- C5: for every table with a well-sized bucket array and a comparator
under which the key equals itself, a successful put(T, k, v) followed
immediately by get(T, k) yields HASHMAP_OK with the value reference v. -/
theorem C5_put_get_roundtrip {alloc : Nat → Bool} {T : Table} {k v : Nat}
    (hwf : T.buckets.length = T.max_size) (hrefl : T.compare k k = 0)
    (hok : (hashmap_put alloc T k v).1 = HASHMAP_OK) :
    hashmap_get (hashmap_put alloc T k v).2 k = (HASHMAP_OK, some v) :=
  putFuel_roundtrip 2 alloc T k v hwf hrefl hok

theorem C5_witness :
    (hashmap_put allocTrue (hashmap_new 4 cmpEx hshEx) 1 7).1 = HASHMAP_OK ∧
    hashmap_get (hashmap_put allocTrue (hashmap_new 4 cmpEx hshEx) 1 7).2 1 =
      (HASHMAP_OK, some 7) :=
  ⟨by decide, C5_put_get_roundtrip (by decide) (by decide) (by decide)⟩

/-- C6: the claim says keys(T) on a non-empty table returns exactly
cur_size key references, each the key of a currently occupied slot, with no
duplicates.  The code violates it: after put(5,7) then put(5,9) on a fresh
capacity-4 table the live count is inflated to 2 while only one slot is
occupied, and keys returns size 2 with the array [5, 0], whose second entry
is uninitialised memory rather than the key of any occupied slot. -/
theorem C6_keys_size_inflated :
    (hashmap_keys true (putList allocTrue (hashmap_new 4 cmpEx hshEx) [(5, 7), (5, 9)]).2).1 =
      HASHMAP_OK ∧
    (hashmap_keys true (putList allocTrue (hashmap_new 4 cmpEx hshEx) [(5, 7), (5, 9)]).2).2.1 =
      some ([5, 0], 2) ∧
    countOccupied (putList allocTrue (hashmap_new 4 cmpEx hshEx) [(5, 7), (5, 9)]).2 = 1 ∧
    (2 : Nat) ≠ 1 := by
  decide

/-- C7: creating a table with capacity n at least 1, with any strategies
under which the n + 1 inserted keys are self-equal and pairwise distinct
(the default string strategies satisfy this), and with every allocation
succeeding, inserting the n + 1 pairs via put returns HASHMAP_OK for every
insert, doubles the capacity to 2n through the rehash triggered by the last
insert, and leaves every one of the n + 1 keys retrievable by get with its
stored value. -/
theorem C7_capacity_growth {n : Nat} (hn : 1 ≤ n) (cmp : Nat → Nat → Int)
    (hsh : Nat → Nat) (kvs : List (Nat × Nat)) (hlen : kvs.length = n + 1)
    (hrefl : ∀ kv ∈ kvs, cmp kv.1 kv.1 = 0)
    (hdist : kvs.Pairwise (fun a b => cmp a.1 b.1 ≠ 0 ∧ cmp b.1 a.1 ≠ 0)) :
    (∀ st ∈ (putList allocTrue (hashmap_new n cmp hsh) kvs).1, st = HASHMAP_OK) ∧
    (putList allocTrue (hashmap_new n cmp hsh) kvs).2.max_size = 2 * n ∧
    ∀ kv ∈ kvs, hashmap_get (putList allocTrue (hashmap_new n cmp hsh) kvs).2 kv.1 =
      (HASHMAP_OK, some kv.2) :=
  capacity_growth hn cmp hsh kvs hlen hrefl hdist

theorem C7_witness :
    ((1 : Nat) ≤ 1 ∧ ([(0, 10), (1, 11)] : List (Nat × Nat)).length = 1 + 1) ∧
    ((∀ st ∈ (putList allocTrue (hashmap_new 1 cmpEx hshEx) [(0, 10), (1, 11)]).1,
        st = HASHMAP_OK) ∧
     (putList allocTrue (hashmap_new 1 cmpEx hshEx) [(0, 10), (1, 11)]).2.max_size = 2 * 1 ∧
     ∀ kv ∈ ([(0, 10), (1, 11)] : List (Nat × Nat)),
       hashmap_get (putList allocTrue (hashmap_new 1 cmpEx hshEx) [(0, 10), (1, 11)]).2 kv.1 =
         (HASHMAP_OK, some kv.2)) :=
  ⟨⟨by decide, by decide⟩,
   C7_capacity_growth (by decide) cmpEx hshEx [(0, 10), (1, 11)] (by decide)
     (by decide) (by decide)⟩

/-- C8: on any table whose live count is zero, get and remove both return
the Empty result (with no value and the table unchanged), and Empty is a
different code from NotFound. -/
theorem C8_empty_queries (T : Table) (k : Nat) (hz : T.cur_size = 0) :
    hashmap_get T k = (HASHMAP_EMPTY, none) ∧
    hashmap_remove T k = (HASHMAP_EMPTY, none, T) ∧
    HASHMAP_EMPTY ≠ HASHMAP_NOT_FOUND := by
  obtain ⟨h1, h2⟩ := empty_get_remove T k hz
  exact ⟨h1, h2, by decide⟩

theorem C8_witness :
    (hashmap_new 16 cmpEx hshEx).cur_size = 0 ∧
    (hashmap_get (hashmap_new 16 cmpEx hshEx) 3 = (HASHMAP_EMPTY, none) ∧
     hashmap_remove (hashmap_new 16 cmpEx hshEx) 3 =
       (HASHMAP_EMPTY, none, hashmap_new 16 cmpEx hshEx) ∧
     HASHMAP_EMPTY ≠ HASHMAP_NOT_FOUND) :=
  ⟨rfl, C8_empty_queries (hashmap_new 16 cmpEx hshEx) 3 rfl⟩

/-- C9: on any table whose live count is consistent (a zero count means no
occupied slot, as in every state the engine itself builds), the
no-early-stop entry point invokes the callback exactly once per occupied
slot in slot-index order and returns Ok regardless of the callback
results, while the check-status entry point behaves exactly like the
specification runCheckSpec: it halts at the first callback result
different from Ok and propagates it. -/
theorem C9_iterate_totality (T : Table) (fn : Nat → Int)
    (hz : T.cur_size = 0 → occupiedValues T = []) :
    hashmap_iterate T fn = (HASHMAP_OK, occupiedValues T) ∧
    hashmap_iterate_check_ok_status T fn = runCheckSpec fn (occupiedValues T) :=
  iterate_spec T fn hz

theorem C9_witness :
    ((putList allocTrue (hashmap_new 4 cmpEx hshEx) [(1, 10), (2, 20)]).2.cur_size = 0 →
      occupiedValues (putList allocTrue (hashmap_new 4 cmpEx hshEx) [(1, 10), (2, 20)]).2 = []) ∧
    (hashmap_iterate (putList allocTrue (hashmap_new 4 cmpEx hshEx) [(1, 10), (2, 20)]).2 fnEx =
       (HASHMAP_OK,
        occupiedValues (putList allocTrue (hashmap_new 4 cmpEx hshEx) [(1, 10), (2, 20)]).2) ∧
     hashmap_iterate_check_ok_status
         (putList allocTrue (hashmap_new 4 cmpEx hshEx) [(1, 10), (2, 20)]).2 fnEx =
       runCheckSpec fnEx
         (occupiedValues (putList allocTrue (hashmap_new 4 cmpEx hshEx) [(1, 10), (2, 20)]).2)) :=
  ⟨by decide,
   C9_iterate_totality (putList allocTrue (hashmap_new 4 cmpEx hshEx) [(1, 10), (2, 20)]).2
     fnEx (by decide)⟩

/-- C10: on any table whose live count is zero, both iterate entry points
return Ok with an empty call trace (the callback is never invoked), and
unlike get, remove and keys on the same table, which all report the Empty
result code, the iterate result Ok differs from Empty. -/
theorem C10_iterate_empty_ok (T : Table) (fn : Nat → Int) (k : Nat)
    (allocOk : Bool) (hz : T.cur_size = 0) :
    hashmap_iterate T fn = (HASHMAP_OK, []) ∧
    hashmap_iterate_check_ok_status T fn = (HASHMAP_OK, []) ∧
    HASHMAP_OK ≠ HASHMAP_EMPTY ∧
    (hashmap_get T k).1 = HASHMAP_EMPTY ∧
    (hashmap_remove T k).1 = HASHMAP_EMPTY ∧
    (hashmap_keys allocOk T).1 = HASHMAP_EMPTY := by
  obtain ⟨h1, h2⟩ := empty_get_remove T k hz
  refine ⟨?_, ?_, by decide, ?_, ?_, ?_⟩
  · rw [hashmap_iterate, hashmap_iterate_impl, if_pos hz]
  · rw [hashmap_iterate_check_ok_status, hashmap_iterate_impl, if_pos hz]
  · exact congrArg Prod.fst h1
  · exact congrArg Prod.fst h2
  · rw [hashmap_keys, if_pos hz]

theorem C10_witness :
    (hashmap_new 4 cmpEx hshEx).cur_size = 0 ∧
    (hashmap_iterate (hashmap_new 4 cmpEx hshEx) fnEx = (HASHMAP_OK, []) ∧
     hashmap_iterate_check_ok_status (hashmap_new 4 cmpEx hshEx) fnEx = (HASHMAP_OK, []) ∧
     HASHMAP_OK ≠ HASHMAP_EMPTY ∧
     (hashmap_get (hashmap_new 4 cmpEx hshEx) 5).1 = HASHMAP_EMPTY ∧
     (hashmap_remove (hashmap_new 4 cmpEx hshEx) 5).1 = HASHMAP_EMPTY ∧
     (hashmap_keys true (hashmap_new 4 cmpEx hshEx)).1 = HASHMAP_EMPTY) :=
  ⟨rfl, C10_iterate_empty_ok (hashmap_new 4 cmpEx hshEx) fnEx 5 true rfl⟩
